import Mathlib

/-!
# Verification of the LinkedIn jobs scraper core

A shallow embedding, in Lean 4, of the crawl-orchestration and company-join
engine of the scraper (source files: `utils.js`, `parsers.js`, `main.js`).
Pure helpers are translated directly; the stateful crawler is modelled as a
small-step transition system in which each request handler runs as one
serialized step (the decision logic of the source is single-threaded).
External capabilities (the WHATWG URL constructor, the cheerio HTML parser
and the HTTP fetch layer) are modelled abstractly: a fetch completion is an
oracle-chosen response, and a URL-string is either a value the URL
constructor accepts (identified with its parse) or a malformed string.
-/

namespace Scraper

/-! ## JavaScript string primitives -/

/-- Models JavaScript `haystack.includes(pattern)` at the character level:
`containsSub hay pat` is true when `pat` occurs contiguously in `hay`. -/
def containsSub : List Char → List Char → Bool
  | [], pat => pat.isEmpty
  | h :: t, pat => pat.isPrefixOf (h :: t) || containsSub t pat

/-- JavaScript `s.includes(pat)` on strings. -/
def jsIncludes (s pat : String) : Bool :=
  containsSub s.data pat.data

/-- JavaScript string truthiness: `a || b` on strings picks `b` when `a` is
the empty string. -/
def jsOrS (a b : String) : String :=
  if a = "" then b else a

/-! ## URLSearchParams model

A query string is a list of key/value pairs.  `getParam` models
`searchParams.get` (first match), `setParam` models `searchParams.set`
(replace the first occurrence in place, delete any later duplicates, or
append when absent), `hasParam` models `searchParams.has`. -/

def getParam : List (String × String) → String → Option String
  | [], _ => none
  | (k', v) :: rest, k => if k' = k then some v else getParam rest k

def hasParam (ps : List (String × String)) (k : String) : Bool :=
  (getParam ps k).isSome

def eraseParam : List (String × String) → String → List (String × String)
  | [], _ => []
  | (k', v') :: rest, k =>
      if k' = k then eraseParam rest k else (k', v') :: eraseParam rest k

def setParam : List (String × String) → String → String → List (String × String)
  | [], k, v => [(k, v)]
  | (k', v') :: rest, k, v =>
      if k' = k then (k, v) :: eraseParam rest k
      else (k', v') :: setParam rest k v

/-- The value of the last occurrence of `k` in `ps` (JavaScript
`for (const [k,v] of params.entries()) target.set(k,v)` keeps the last
value of a duplicated key). -/
def lastParam (ps : List (String × String)) (k : String) : Option String :=
  getParam ps.reverse k

/-! ## URL model

The WHATWG `URL` constructor is an external capability.  A parsed URL is
kept in components; `urlToString` is its canonical serialization.  A
JavaScript string fed to URL-handling code is either a string the
constructor accepts — identified with its (canonical) parse, whose
serialization re-parses to itself — or a malformed string on which the
constructor throws. -/

structure Url where
  scheme : String
  host : String
  path : String
  params : List (String × String)
deriving DecidableEq

def paramsToString : List (String × String) → String
  | [] => ""
  | [(k, v)] => k ++ "=" ++ v
  | (k, v) :: rest => k ++ "=" ++ v ++ "&" ++ paramsToString rest

def urlToString (u : Url) : String :=
  u.scheme ++ "://" ++ u.host ++ u.path ++
    (if u.params.isEmpty then "" else "?" ++ paramsToString u.params)

/-- A JavaScript string in URL position: either the (canonical) parse the
URL constructor produces, or a string on which `new URL(...)` throws. -/
inductive UrlInput where
  | parsed (u : Url)
  | malformed (s : String)
deriving DecidableEq

/-- The character content of the string. -/
def UrlInput.text : UrlInput → String
  | .parsed u => urlToString u
  | .malformed s => s

/-! ## utils.js : toGuestApiUrl, getStartParam, setStartParam -/

def apiMarker : String := "/jobs-guest/jobs/api/seeMoreJobPostings/"

def apiPath : String := "/jobs-guest/jobs/api/seeMoreJobPostings/search"

/-- The query-parameter copy loop of `toGuestApiUrl`: every parameter of
the source URL is `searchParams.set` onto the fresh endpoint, then `start`
is defaulted to `"0"` when absent. -/
def apiParams (ps : List (String × String)) : List (String × String) :=
  let ps1 := ps.foldl (fun acc kv => setParam acc kv.1 kv.2) []
  if hasParam ps1 "start" then ps1 else setParam ps1 "start" "0"

/-- The URL object `toGuestApiUrl` builds in its parse branch. -/
def rebuiltApiUrl (u : Url) : Url :=
  { scheme := "https", host := "www.linkedin.com", path := apiPath,
    params := apiParams u.params }

/-- `toGuestApiUrl` from `utils.js`: if the URL already contains the guest
API path, return it as-is; otherwise re-parse it, copy every query
parameter onto the fixed API endpoint via `searchParams.set`, default
`start` to `"0"` when absent, and serialize.  An unparseable string is
returned unchanged (the `catch` branch). -/
def toGuestApiUrl (url : UrlInput) : UrlInput :=
  if jsIncludes url.text apiMarker then url
  else
    match url with
    | .malformed _ => url
    | .parsed u => .parsed (rebuiltApiUrl u)

/-- Decimal digits of a natural number, most significant first
(models JavaScript `String(n)` for a natural `n`). -/
def natToDigits (n : Nat) : List Char :=
  if h : n < 10 then [Char.ofNat (48 + n)]
  else natToDigits (n / 10) ++ [Char.ofNat (48 + n % 10)]
decreasing_by
  exact Nat.div_lt_self (by omega) (by omega)

def natToString (n : Nat) : String := ⟨natToDigits n⟩

/-- Numeric value of a digit list (most significant first). -/
def digitsVal (l : List Char) : Nat :=
  l.foldl (fun a c => 10 * a + (c.toNat - 48)) 0

/-- The maximal decimal-digit prefix of a character list, as a number;
`none` when there is no leading digit. -/
def digitsPrefixVal (l : List Char) : Option Nat :=
  let ds := l.takeWhile (fun c => c.isDigit)
  if ds.isEmpty then none else some (digitsVal ds)

/-- Models JavaScript `parseInt(s, 10)`: skip leading whitespace, read an
optional sign and then a maximal prefix of decimal digits; `none` models
the `NaN` result when no digit is found. -/
def jsParseInt (s : String) : Option Int :=
  let t := s.data.dropWhile (fun c => c.isWhitespace)
  if t.head? = some '-' then (digitsPrefixVal t.tail).map (fun n => -(n : Int))
  else if t.head? = some '+' then (digitsPrefixVal t.tail).map (fun n => (n : Int))
  else (digitsPrefixVal t).map (fun n => (n : Int))

/-- `getStartParam` from `utils.js`:
`parseInt(parsed.searchParams.get('start') || '0', 10)`, returning `0` when
the URL constructor throws.  `none` models a `NaN` result. -/
def getStartParam (url : UrlInput) : Option Int :=
  match url with
  | .malformed _ => some 0
  | .parsed u =>
      let raw := match getParam u.params "start" with
        | none => "0"
        | some s => jsOrS s "0"
      jsParseInt raw

/-- `setStartParam` from `utils.js`: clone the URL, set its `start`
parameter to `String(start)` and serialize; an unparseable string is
returned unchanged. -/
def setStartParam (url : UrlInput) (start : Nat) : UrlInput :=
  match url with
  | .malformed _ => url
  | .parsed u => .parsed { u with params := setParam u.params "start" (natToString start) }

/-- `extractCompanySlug` from `utils.js`: first match of the regular
expression `linkedin\.com\/company\/([^/?#]+)` — scan for the literal
marker, take the maximal nonempty run of characters other than
`/ ? #` after it, and keep scanning on an empty capture (regex
backtracking). -/
def companyMarker : String := "linkedin.com/company/"

def findSlug : List Char → Option (List Char)
  | [] => none
  | c :: rest =>
      if companyMarker.data.isPrefixOf (c :: rest) then
        let slug := ((c :: rest).drop companyMarker.length).takeWhile
          (fun ch => !(ch == '/' || ch == '?' || ch == '#'))
        if slug.isEmpty then findSlug rest else some slug
      else findSlug rest

def extractCompanySlug (url : String) : Option String :=
  if url = "" then none
  else (findSlug url.data).map (fun l => ⟨l⟩)

/-- `formatPostedAt` from `utils.js`: falsy input gives `null`; otherwise
keep the part before the first `T` when it looks like `YYYY-MM-DD`, else
return the input unchanged. -/
def isIsoDate (s : String) : Bool :=
  match s.data with
  | [y1, y2, y3, y4, h1, m1, m2, h2, d1, d2] =>
      y1.isDigit && y2.isDigit && y3.isDigit && y4.isDigit &&
      (h1 == '-') && m1.isDigit && m2.isDigit && (h2 == '-') &&
      d1.isDigit && d2.isDigit
  | _ => false

def formatPostedAt : Option String → Option String
  | none => none
  | some s =>
      if s = "" then none
      else
        let date : String := ⟨s.data.takeWhile (fun c => !(c == 'T'))⟩
        if isIsoDate date then some date else some s

/-! ## parsers.js : isLoginWall

The cheerio document is abstracted to the facts the classifier queries:
whether each of the five content selectors matches, plus the raw markup
string used by the auth-wall substring checks. -/

structure Page where
  /-- a `div.show-more-less-html__markup` element is present -/
  hasShowMoreLessMarkup : Bool
  /-- a `div.description__text` element is present -/
  hasDescriptionText : Bool
  /-- a `li.description__job-criteria-item` element is present -/
  hasCriteriaItem : Bool
  /-- a `section.core-section-container` element is present -/
  hasCoreSection : Bool
  /-- a `dt` element is present -/
  hasDt : Bool
  /-- the raw markup, `$.html()` -/
  html : String
deriving DecidableEq

/-- `isLoginWall` from `parsers.js`: status 401/403 is always a wall;
otherwise a page with real job or company content is never a wall; an
otherwise contentless page is a wall when it carries an auth-wall marker,
or is short (< 5000 characters) and mentions `/login`. -/
def isLoginWall (p : Page) (statusCode : Int) : Bool :=
  if statusCode = 401 ∨ statusCode = 403 then true
  else
    let hasDescription := p.hasShowMoreLessMarkup || p.hasDescriptionText
    let hasCriteria := p.hasCriteriaItem
    let hasCompanyInfo := p.hasCoreSection || p.hasDt
    if (hasDescription || hasCriteria || hasCompanyInfo) = true then false
    else
      let isAuthWall := jsIncludes p.html "authwall" || jsIncludes p.html "sign-in-modal" ||
        jsIncludes p.html "uas-login"
      let isShortPage := p.html.length < 5000
      isAuthWall || (isShortPage && jsIncludes p.html "/login")

/-- The positive content markers of the claim — exactly the disjunction of
selector hits the classifier treats as recognizable job or company
content. -/
def hasContentMarkers (p : Page) : Bool :=
  p.hasShowMoreLessMarkup || p.hasDescriptionText || p.hasCriteriaItem ||
    p.hasCoreSection || p.hasDt

/-! ## main.js : the shape of the record passed to Actor.pushData

JavaScript values that can appear in an output field. -/

structure Address where
  streetAddress : Option String
  addressLocality : Option String
  addressRegion : Option String
  postalCode : Option String
  addressCountry : Option String
deriving DecidableEq

inductive JVal where
  | null
  | str (s : String)
  | num (n : Int)
  | arr (xs : List String)
  | addr (a : Address)
deriving DecidableEq

/-- The partially-populated job object handed to `pushResult`: every
field may be absent (`none` models a missing/undefined or null property). -/
structure JobData where
  id : Option String := none
  trackingId : Option String := none
  refId : Option String := none
  link : Option String := none
  title : Option String := none
  companyName : Option String := none
  companyLinkedinUrl : Option String := none
  companyLogo : Option String := none
  location : Option String := none
  salaryInfo : Option (List String) := none
  salary : Option String := none
  postedAt : Option String := none
  benefits : Option (List String) := none
  descriptionHtml : Option String := none
  descriptionText : Option String := none
  applicantsCount : Option String := none
  applyUrl : Option String := none
  jobPosterName : Option String := none
  jobPosterTitle : Option String := none
  jobPosterPhoto : Option String := none
  jobPosterProfileUrl : Option String := none
  seniorityLevel : Option String := none
  employmentType : Option String := none
  jobFunction : Option String := none
  industries : Option String := none
  inputUrl : Option String := none
  companyDescription : Option String := none
  companyWebsite : Option String := none
  companyEmployeesCount : Option Int := none
  companyIndustry : Option String := none
  companySpecialties : Option String := none
  companyType : Option String := none
  companyFounded : Option String := none
  companyHeadquarters : Option String := none
  companySlogan : Option String := none
  companyAddress : Option Address := none
deriving DecidableEq

/-- JavaScript `x || null` on a string-valued property: the empty string is
falsy and also becomes `null`. -/
def jsOrNullS : Option String → JVal
  | some s => if s = "" then JVal.null else JVal.str s
  | none => JVal.null

/-- JavaScript `x ?? null` on a string-valued property: only
null/undefined becomes `null`. -/
def jsNullishS : Option String → JVal
  | some s => JVal.str s
  | none => JVal.null

/-- The `salaryStr` computation in `pushResult`:
`data.salary ?? (Array.isArray(data.salaryInfo) && data.salaryInfo.length ?
data.salaryInfo.filter(Boolean).join(' – ') : '')`. -/
def salaryStr (d : JobData) : String :=
  match d.salary with
  | some s => s
  | none =>
      match d.salaryInfo with
      | some l => if l.length ≠ 0 then String.intercalate " – " (l.filter (fun s => !(s == ""))) else ""
      | none => ""

/-- The `postedAt` field: `formatPostedAt(data.postedAt) || data.postedAt || null`. -/
def postedAtField (d : JobData) : JVal :=
  match formatPostedAt d.postedAt with
  | some s => if s = "" then jsOrNullS d.postedAt else JVal.str s
  | none => jsOrNullS d.postedAt

/-- The `inputUrl` field: `data.inputUrl || inputUrl || null` where the
second `inputUrl` is the module-level variable, passed here as `g`. -/
def inputUrlField (g : String) (d : JobData) : JVal :=
  match d.inputUrl with
  | some s => if s = "" then jsOrNullS (some g) else JVal.str s
  | none => jsOrNullS (some g)

/-- The flat object literal that `pushResult` in `main.js` hands to
`Actor.pushData`, as an association list in source order.  `g` is the
module-level `inputUrl` variable. -/
def pushRecord (g : String) (d : JobData) : List (String × JVal) :=
  [ ("id", jsOrNullS d.id),
    ("trackingId", jsNullishS d.trackingId),
    ("refId", jsNullishS d.refId),
    ("link", jsOrNullS d.link),
    ("title", jsOrNullS d.title),
    ("companyName", jsOrNullS d.companyName),
    ("companyLinkedinUrl", jsOrNullS d.companyLinkedinUrl),
    ("companyLogo", jsOrNullS d.companyLogo),
    ("location", jsOrNullS d.location),
    ("salaryInfo", JVal.arr (d.salaryInfo.getD [])),
    ("salary", JVal.str (jsOrS (salaryStr d) "")),
    ("postedAt", postedAtField d),
    ("benefits", JVal.arr (d.benefits.getD [])),
    ("descriptionHtml", jsOrNullS d.descriptionHtml),
    ("descriptionText", jsOrNullS d.descriptionText),
    ("applicantsCount", jsOrNullS d.applicantsCount),
    ("applyUrl", JVal.str (d.applyUrl.getD "")),
    ("jobPosterName", jsOrNullS d.jobPosterName),
    ("jobPosterTitle", jsOrNullS d.jobPosterTitle),
    ("jobPosterPhoto", jsOrNullS d.jobPosterPhoto),
    ("jobPosterProfileUrl", jsOrNullS d.jobPosterProfileUrl),
    ("seniorityLevel", jsOrNullS d.seniorityLevel),
    ("employmentType", jsOrNullS d.employmentType),
    ("jobFunction", jsOrNullS d.jobFunction),
    ("industries", jsOrNullS d.industries),
    ("inputUrl", inputUrlField g d),
    ("companyDescription", jsOrNullS d.companyDescription),
    ("companyWebsite", jsOrNullS d.companyWebsite),
    ("companyEmployeesCount", match d.companyEmployeesCount with
      | some n => JVal.num n
      | none => JVal.null),
    ("companyIndustry", jsOrNullS d.companyIndustry),
    ("companySpecialties", jsOrNullS d.companySpecialties),
    ("companyType", jsOrNullS d.companyType),
    ("companyFounded", jsOrNullS d.companyFounded),
    ("companyHeadquarters", jsOrNullS d.companyHeadquarters),
    ("companySlogan", jsOrNullS d.companySlogan),
    ("companyAddress", match d.companyAddress with
      | some a => JVal.addr a
      | none => JVal.null) ]

/-- The 36 field names of every output record, in source order. -/
def outputFieldNames : List String :=
  [ "id", "trackingId", "refId", "link", "title", "companyName",
    "companyLinkedinUrl", "companyLogo", "location", "salaryInfo", "salary",
    "postedAt", "benefits", "descriptionHtml", "descriptionText",
    "applicantsCount", "applyUrl", "jobPosterName", "jobPosterTitle",
    "jobPosterPhoto", "jobPosterProfileUrl", "seniorityLevel",
    "employmentType", "jobFunction", "industries", "inputUrl",
    "companyDescription", "companyWebsite", "companyEmployeesCount",
    "companyIndustry", "companySpecialties", "companyType",
    "companyFounded", "companyHeadquarters", "companySlogan",
    "companyAddress" ]

/-! ## main.js : the crawl orchestrator as a transition system

The crawler state machine.  Each completed fetch is processed as one
serialized step (the source decision logic is single-threaded); the
response a fetch produced — status code, parsed cards, login-wall
classification, parsed detail and company fields, and the random jitter —
is an oracle-chosen `Resp`.  A ghost trace is kept for specification
purposes only: `dispatched` logs every request accepted by the queue,
`pathTaken` logs each job id at the moment the dispatch-or-push path is
entered for it, and `sleeps` logs every `sleep(ms)` call. -/

/-- A job-summary card as produced by `parseJobCards`. -/
structure Card where
  id : String
  companyLinkedinUrl : String
  /-- the remaining summary fields (title, location, ...), kept abstract -/
  fields : List (String × String)
deriving DecidableEq

/-- Company fields produced by `parseCompanyPage`, as a property bag; the
empty bag is also the permanent-failure tombstone. -/
abbrev CompanyFields := List (String × String)

/-- Detail fields produced by `parseJobDetail`, kept abstract. -/
abbrev DetailFields := List (String × String)

/-- JavaScript `Object.assign(base, ext)`: every key of `ext` overwrites or
extends `base` (an object cannot hold a duplicated key, so the
duplicate-erasing `setParam` has the same effect). -/
def assignFields (base ext : List (String × String)) : List (String × String) :=
  ext.foldl (fun b kv => setParam b kv.1 kv.2) base

/-- A job record accumulating its three waves of fields. -/
structure Job where
  card : Card
  inputUrl : String
  detailFields : Option DetailFields
  companyFields : CompanyFields
deriving DecidableEq

/-- `{ ...card, inputUrl }` — the `cardWithInput` object. -/
def mkCardJob (c : Card) (inputU : String) : Job :=
  { card := c, inputUrl := inputU, detailFields := none, companyFields := [] }

/-- `Object.assign(job, companyData)`. -/
def assignCompany (j : Job) (cdata : CompanyFields) : Job :=
  { j with companyFields := assignFields j.companyFields cdata }

/-- The `userData` of a queued request. -/
inductive ReqData where
  | search (label : String) (inputUrl : String)
  | detail (cardData : Job)
  | company (slug : String) (pendingJobs : List Job)
deriving DecidableEq

structure Request where
  uniqueKey : String
  data : ReqData
  retryCount : Nat
deriving DecidableEq

/-- An oracle-chosen fetch outcome: `status` is `response?.statusCode`,
`cards` the `parseJobCards` result, `loginWall` the `isLoginWall`
classification, `detail`/`company` the parsed field bags, and `jitter` the
value `randomDelay` returned at this step. -/
structure Resp where
  status : Int
  cards : List Card
  loginWall : Bool
  detail : DetailFields
  company : CompanyFields
  jitter : Nat

/-- The input configuration fields the orchestrator branches on, plus the
module-level `inputUrl` variable. -/
structure Config where
  maxItems : Nat
  scrapeJobDetails : Bool
  scrapeCompany : Bool
  globalInputUrl : String

/-- `maxRequestRetries: 5` from the CheerioCrawler options. -/
def maxRequestRetries : Nat := 5

/-- The orchestrator state: the request queue and the five shared
structures, plus the ghost trace fields (`dispatched`, `pathTaken`,
`sleeps`) used only by the specification. -/
structure St where
  queue : List Request
  scrapedIds : List String
  totalScraped : Nat
  companyCache : List (String × CompanyFields)
  pendingCompanies : List (String × List Job)
  pushed : List Job
  dispatched : List Request
  pathTaken : List String
  sleeps : List Nat

/-- JavaScript `Map.set`: overwrite in place or append. -/
def mapSet {β : Type} : List (String × β) → String → β → List (String × β)
  | [], k, v => [(k, v)]
  | (k', v') :: rest, k, v =>
      if k' = k then (k, v) :: rest else (k', v') :: mapSet rest k v

/-- JavaScript `Map.delete`. -/
def mapDelete {β : Type} : List (String × β) → String → List (String × β)
  | [], _ => []
  | (k', v') :: rest, k =>
      if k' = k then mapDelete rest k else (k', v') :: mapDelete rest k

/-- `requestQueue.addRequest(r, { forefront })`: rejected (with
`wasAlreadyPresent: true`) when a request with the same `uniqueKey` was
ever accepted; otherwise placed at the front or back of the queue and
logged in the ghost `dispatched` trace. -/
def addRequest (s : St) (r : Request) (forefront : Bool) : St × Bool :=
  if r.uniqueKey ∈ s.dispatched.map Request.uniqueKey then (s, true)
  else
    ({ s with
        queue := if forefront then r :: s.queue else s.queue ++ [r],
        dispatched := r :: s.dispatched }, false)

/-- `pushResult` from `main.js`, at the orchestration level: drop the
record once the budget is reached, otherwise append it to the sink and
increment the counter.  (The field-by-field flattening of the pushed
object is modelled separately by `pushRecord`.) -/
def pushResult (cfg : Config) (j : Job) (s : St) : St :=
  if s.totalScraped ≥ cfg.maxItems then s
  else { s with pushed := s.pushed ++ [j], totalScraped := s.totalScraped + 1 }

def detailRequest (c : Card) (job : Job) : Request :=
  { uniqueKey := "detail-" ++ c.id, data := .detail job, retryCount := 0 }

def companyRequest (slug : String) (job : Job) : Request :=
  { uniqueKey := "company-" ++ slug, data := .company slug [job], retryCount := 0 }

/-- The card loop of `handleSearch`: `break` once the budget is reached,
`continue` on an id already in `scrapedIds`, otherwise mark the id (the
ghost `pathTaken` records this moment) and either dispatch a forefront
`JOB_DETAIL` request or push the summary-only record. -/
def processCards (cfg : Config) (inputU : String) : List Card → St → St
  | [], s => s
  | c :: rest, s =>
      if s.totalScraped ≥ cfg.maxItems then s
      else if c.id ∈ s.scrapedIds then processCards cfg inputU rest s
      else
        let s1 := { s with scrapedIds := c.id :: s.scrapedIds,
                           pathTaken := c.id :: s.pathTaken }
        let job := mkCardJob c inputU
        if cfg.scrapeJobDetails then
          processCards cfg inputU rest (addRequest s1 (detailRequest c job) true).1
        else
          processCards cfg inputU rest (pushResult cfg job s1)

/-- `handleSearch` from `main.js`. -/
def handleSearch (cfg : Config) (reqInputUrl : String) (resp : Resp) (s : St) : St :=
  if s.totalScraped ≥ cfg.maxItems then s
  else if resp.status = 429 then { s with sleeps := s.sleeps ++ [5000] }
  else if resp.status ≠ 200 then s
  else if resp.cards.isEmpty then s
  else
    let searchInputUrl := jsOrS reqInputUrl (jsOrS cfg.globalInputUrl "")
    let s1 := processCards cfg searchInputUrl resp.cards s
    { s1 with sleeps := s1.sleeps ++ [resp.jitter] }

/-- `pendingCompanies.set(slug, [])` — the overflow list is created when
the COMPANY request is first accepted. -/
def initOverflow (slug : String) (s : St) : St :=
  { s with pendingCompanies := mapSet s.pendingCompanies slug [] }

/-- Park a job in the overflow list of its slug
(`pendingCompanies.get(slug).push(merged)`, creating the list if absent). -/
def parkOverflow (merged : Job) (slug : String) (s : St) : St :=
  let pend := ((List.lookup slug s.pendingCompanies).getD []) ++ [merged]
  { s with pendingCompanies := mapSet s.pendingCompanies slug pend }

/-- The company-join block of `handleJobDetail` (spec §4.3): derive the
slug; on a cache hit merge and push; otherwise try to enqueue the COMPANY
request keyed `company-<slug>` carrying this job as its passenger — when
the key was already present, re-check the cache and either push or park
the job in the overflow list for the slug. -/
def joinCompany (cfg : Config) (merged : Job) (companyUrl : String) (s : St) : St :=
  if cfg.scrapeCompany ∧ companyUrl ≠ "" then
    match extractCompanySlug companyUrl with
    | some slug =>
        match List.lookup slug s.companyCache with
        | some cdata => pushResult cfg (assignCompany merged cdata) s
        | none =>
            if (addRequest s (companyRequest slug merged) false).2 = false then
              initOverflow slug (addRequest s (companyRequest slug merged) false).1
            else
              match List.lookup slug (addRequest s (companyRequest slug merged) false).1.companyCache with
              | some cdata =>
                  pushResult cfg (assignCompany merged cdata)
                    (addRequest s (companyRequest slug merged) false).1
              | none =>
                  parkOverflow merged slug (addRequest s (companyRequest slug merged) false).1
    | none => pushResult cfg merged s
  else pushResult cfg merged s

/-- `handleJobDetail` from `main.js`.  The second component is true when
the handler threw (the rate-limit retry signal). -/
def handleJobDetail (cfg : Config) (job : Job) (retryCount : Nat) (resp : Resp)
    (s : St) : St × Bool :=
  if s.totalScraped ≥ cfg.maxItems then (s, false)
  else if resp.status = 429 ∨ resp.status = 999 then
    ({ s with sleeps := s.sleeps ++ [retryCount * 3000 + resp.jitter] }, true)
  else if resp.loginWall then (pushResult cfg job s, false)
  else if resp.status ≠ 200 then (pushResult cfg job s, false)
  else
    let core := joinCompany cfg { job with detailFields := some resp.detail }
      job.card.companyLinkedinUrl s
    ({ core with sleeps := core.sleeps ++ [resp.jitter] }, false)

/-- The common tail of `handleCompany`: record the resolution in the
cache, push every passenger and every overflow job merged with the
resolved fields, delete the pending list, sleep. -/
def finishCompany (cfg : Config) (slug : String) (pendingJobs : List Job)
    (cdata : CompanyFields) (jitter : Nat) (s : St) : St :=
  let s1 := { s with companyCache := mapSet s.companyCache slug cdata }
  let s2 := pendingJobs.foldl (fun st j => pushResult cfg (assignCompany j cdata) st) s1
  let overflow := (List.lookup slug s2.pendingCompanies).getD []
  let s3 := overflow.foldl (fun st j => pushResult cfg (assignCompany j cdata) st) s2
  { s3 with pendingCompanies := mapDelete s3.pendingCompanies slug,
            sleeps := s3.sleeps ++ [jitter] }

/-- `handleCompany` from `main.js`: a 429/999 status retries (with
backoff) up to four times, then resolves to the empty tombstone; a 200
non-wall page resolves to the parsed fields; a login wall retries up to
four times; anything else resolves to the tombstone immediately. -/
def handleCompany (cfg : Config) (slug : String) (pendingJobs : List Job)
    (retryCount : Nat) (resp : Resp) (s : St) : St × Bool :=
  if resp.status = 999 ∨ resp.status = 429 then
    if retryCount < 4 then
      ({ s with sleeps := s.sleeps ++ [retryCount * 2000 + resp.jitter] }, true)
    else
      (finishCompany cfg slug pendingJobs [] resp.jitter s, false)
  else if resp.status = 200 ∧ resp.loginWall = false then
    (finishCompany cfg slug pendingJobs resp.company resp.jitter s, false)
  else
    if resp.loginWall = true ∧ retryCount < 4 then (s, true)
    else (finishCompany cfg slug pendingJobs [] resp.jitter s, false)

/-- The crawler `requestHandler`: route by request kind. -/
def runHandler (cfg : Config) (req : Request) (resp : Resp) (s : St) : St × Bool :=
  match req.data with
  | .search _ inputU => (handleSearch cfg inputU resp s, false)
  | .detail job => handleJobDetail cfg job req.retryCount resp s
  | .company slug jobs => handleCompany cfg slug jobs req.retryCount resp s

/-- `failedRequestHandler` from `main.js`: a permanently failed
`JOB_DETAIL` pushes its partial `cardData`; a permanently failed `COMPANY`
tombstones the cache and pushes every waiting job without company data;
a failed `SEARCH` is only logged. -/
def failedRequestHandler (cfg : Config) (req : Request) (s : St) : St :=
  match req.data with
  | .search _ _ => s
  | .detail job => pushResult cfg job s
  | .company slug pendingJobs =>
      let overflow := (List.lookup slug s.pendingCompanies).getD []
      let s1 := { s with companyCache := mapSet s.companyCache slug [] }
      let s2 := (pendingJobs ++ overflow).foldl (fun st j => pushResult cfg j st) s1
      { s2 with pendingCompanies := mapDelete s2.pendingCompanies slug }

/-- Process one completed fetch (the request has already been taken off
the queue): run the handler; a thrown retry signal re-enqueues the request
with its retry count bumped while retries remain, and otherwise invokes
the `failedRequestHandler`. -/
def processStep (cfg : Config) (req : Request) (resp : Resp) (s : St) : St :=
  let res := runHandler cfg req resp s
  if res.2 then
    if req.retryCount < maxRequestRetries then
      { res.1 with queue := res.1.queue ++ [{ req with retryCount := req.retryCount + 1 }] }
    else failedRequestHandler cfg req res.1
  else res.1

/-- One scheduler step: the fetch of the request at position `i` of the
queue completes with response `resp` (no-op when `i` is out of range). -/
def stepAt (cfg : Config) (s : St) (i : Nat) (resp : Resp) : St :=
  match s.queue.get? i with
  | none => s
  | some req => processStep cfg req resp { s with queue := s.queue.eraseIdx i }

/-- One scheduler step in which the fetch of the request at position `i`
fails at the transport level: while retries remain the request is
re-enqueued with its retry count bumped, otherwise the
`failedRequestHandler` runs. -/
def failStep (cfg : Config) (s : St) (i : Nat) : St :=
  match s.queue.get? i with
  | none => s
  | some req =>
      let s1 := { s with queue := s.queue.eraseIdx i }
      if req.retryCount < maxRequestRetries then
        { s1 with queue := s1.queue ++ [{ req with retryCount := req.retryCount + 1 }] }
      else failedRequestHandler cfg req s1

def emptySt : St :=
  { queue := [], scrapedIds := [], totalScraped := 0, companyCache := [],
    pendingCompanies := [], pushed := [], dispatched := [], pathTaken := [],
    sleeps := [] }

/-- The state after start-up: the paginated search requests produced by
`enqueueSearchPages` have been added, one by one, through the queue. -/
def initSt (rs : List Request) : St :=
  rs.foldl (fun s r => (addRequest s r false).1) emptySt

/-- The reachable states of a run: start from an initial queue of SEARCH
requests (the only kind `enqueueSearchPages` creates), then nondeterministic
interleavings of fetch completions and transport failures. -/
inductive Reach (cfg : Config) : St → Prop where
  | init (rs : List Request)
      (hsearch : ∀ r ∈ rs, ∃ lbl iu, r.data = ReqData.search lbl iu) :
      Reach cfg (initSt rs)
  | handle (s : St) (i : Nat) (resp : Resp) (hs : Reach cfg s) :
      Reach cfg (stepAt cfg s i resp)
  | fail (s : St) (i : Nat) (hs : Reach cfg s) :
      Reach cfg (failStep cfg s i)


/-! ## Lemmas : substring search -/

theorem prefix_append_right {α : Type} (p xs ys : List α) (h : p <+: xs) :
    p <+: xs ++ ys := by
  obtain ⟨t, rfl⟩ := h
  exact ⟨t ++ ys, (List.append_assoc p t ys).symm⟩

theorem containsSub_nil_pat (ys : List Char) : containsSub ys [] = true := by
  induction ys with
  | nil => rfl
  | cons h t ih => simp [containsSub]

theorem containsSub_append_right (xs ys pat : List Char)
    (h : containsSub xs pat = true) : containsSub (xs ++ ys) pat = true := by
  induction xs with
  | nil =>
      simp [containsSub] at h
      rw [h]
      simp [containsSub_nil_pat]
  | cons a t ih =>
      simp [containsSub] at h ⊢
      rcases h with h | h
      · exact Or.inl (prefix_append_right pat (a :: t) ys h)
      · exact Or.inr (ih h)

theorem jsIncludes_append (a b pat : String) (h : jsIncludes a pat = true) :
    jsIncludes (a ++ b) pat = true := by
  unfold jsIncludes at h ⊢
  rw [String.data_append]
  exact containsSub_append_right a.data b.data pat.data h

/-- The serialization of every rebuilt API URL contains the guest API
marker, whatever its query parameters are. -/
theorem marker_in_rebuilt (u : Url) :
    jsIncludes (urlToString (rebuiltApiUrl u)) apiMarker = true := by
  show jsIncludes ("https" ++ ("://" ++ ("www.linkedin.com" ++ (apiPath ++ _)))) apiMarker = true
  rw [← String.append_assoc, ← String.append_assoc, ← String.append_assoc]
  apply jsIncludes_append
  decide

/-! ## Lemmas : URLSearchParams -/

theorem getParam_setParam_self (ps : List (String × String)) (k v : String) :
    getParam (setParam ps k v) k = some v := by
  induction ps with
  | nil => simp [setParam, getParam]
  | cons p rest ih =>
      obtain ⟨k1, v1⟩ := p
      by_cases h : k1 = k
      · simp [setParam, getParam, h]
      · simp [setParam, getParam, h, ih]

theorem getParam_eraseParam_ne (ps : List (String × String)) (k k2 : String)
    (h : k2 ≠ k) : getParam (eraseParam ps k) k2 = getParam ps k2 := by
  have hks : k ≠ k2 := fun he => h he.symm
  induction ps with
  | nil => rfl
  | cons p rest ih =>
      obtain ⟨k1, v1⟩ := p
      by_cases h1 : k1 = k
      · have h2 : k1 ≠ k2 := by rw [h1]; exact hks
        simp [eraseParam, getParam, h1, h2, hks, h, ih]
      · by_cases h2 : k1 = k2 <;> simp [eraseParam, getParam, h1, h2, hks, h, ih]

theorem getParam_setParam_ne (ps : List (String × String)) (k v k2 : String)
    (h : k2 ≠ k) : getParam (setParam ps k v) k2 = getParam ps k2 := by
  have hks : k ≠ k2 := fun he => h he.symm
  induction ps with
  | nil => simp [setParam, getParam, hks]
  | cons p rest ih =>
      obtain ⟨k1, v1⟩ := p
      by_cases h1 : k1 = k
      · have h3 : k1 ≠ k2 := by rw [h1]; exact hks
        simp [setParam, getParam, h1, h3, hks]
        exact getParam_eraseParam_ne rest k k2 h
      · by_cases h2 : k1 = k2 <;> simp [setParam, getParam, h1, h2, hks, h, ih]

theorem getParam_append (xs ys : List (String × String)) (k : String) :
    getParam (xs ++ ys) k =
      match getParam xs k with
      | some v => some v
      | none => getParam ys k := by
  induction xs with
  | nil => simp [getParam]
  | cons p rest ih =>
      obtain ⟨k1, v1⟩ := p
      by_cases h : k1 = k <;> simp [getParam, h, ih]

theorem getParam_none_iff (ps : List (String × String)) (k : String) :
    getParam ps k = none ↔ ∀ p ∈ ps, p.1 ≠ k := by
  induction ps with
  | nil => simp [getParam]
  | cons p rest ih =>
      obtain ⟨k1, v1⟩ := p
      by_cases h : k1 = k <;> simp [getParam, h, ih]

theorem lastParam_none (ps : List (String × String)) (k : String)
    (h : getParam ps k = none) : lastParam ps k = none := by
  unfold lastParam
  rw [getParam_none_iff] at h ⊢
  intro p hp
  exact h p (List.mem_reverse.mp hp)

theorem getParam_foldl_set (ps : List (String × String))
    (acc : List (String × String)) (k : String) :
    getParam (ps.foldl (fun a kv => setParam a kv.1 kv.2) acc) k =
      match lastParam ps k with
      | some v => some v
      | none => getParam acc k := by
  induction ps generalizing acc with
  | nil => simp [lastParam, getParam]
  | cons p rest ih =>
      obtain ⟨k1, v1⟩ := p
      rw [List.foldl_cons, ih]
      have hrev : lastParam ((k1, v1) :: rest) k =
          match lastParam rest k with
          | some v => some v
          | none => getParam [(k1, v1)] k := by
        unfold lastParam
        rw [List.reverse_cons, getParam_append]
      rw [hrev]
      cases hl : lastParam rest k with
      | some v => rfl
      | none =>
          by_cases h1 : k1 = k
          · subst h1
            simp [getParam, getParam_setParam_self]
          · simp [getParam, h1]
            exact getParam_setParam_ne acc k1 v1 k (fun he => h1 he.symm)

/-- Every `getParam` fact about the rebuilt parameter list. -/
theorem apiParams_spec (ps : List (String × String)) :
    (∀ k v, lastParam ps k = some v → getParam (apiParams ps) k = some v) ∧
    (getParam ps "start" = none → getParam (apiParams ps) "start" = some "0") := by
  constructor
  · intro k v hv
    have hfold := getParam_foldl_set ps [] k
    rw [hv] at hfold
    simp only [apiParams]
    split
    · exact hfold
    · next hstart =>
        by_cases hk : k = "start"
        · subst hk
          unfold hasParam at hstart
          rw [hfold] at hstart
          simp at hstart
        · rw [getParam_setParam_ne _ _ _ _ hk]
          exact hfold
  · intro h0
    have hnone : lastParam ps "start" = none := lastParam_none ps "start" h0
    have hfold := getParam_foldl_set ps [] "start"
    rw [hnone] at hfold
    simp only [getParam] at hfold
    simp only [apiParams]
    split
    · next hstart =>
        unfold hasParam at hstart
        rw [hfold] at hstart
        simp at hstart
    · exact getParam_setParam_self _ _ _

/-! ## Lemmas : decimal digits -/

theorem digitChar_spec (d : Nat) (h : d < 10) :
    (Char.ofNat (48 + d)).isDigit = true ∧ (Char.ofNat (48 + d)).toNat = 48 + d ∧
    (Char.ofNat (48 + d)).isWhitespace = false ∧
    (Char.ofNat (48 + d)) ≠ '-' ∧ (Char.ofNat (48 + d)) ≠ '+' := by
  interval_cases d <;> exact ⟨by decide, by decide, by decide, by decide, by decide⟩

theorem natToDigits_ne_nil (n : Nat) : natToDigits n ≠ [] := by
  rw [natToDigits]
  split <;> simp

theorem natToDigits_digits (n : Nat) : ∀ c ∈ natToDigits n, c.isDigit = true := by
  induction n using Nat.strong_induction_on with
  | _ n ih =>
      rw [natToDigits]
      split
      · next h =>
          intro c hc
          simp at hc
          rw [hc]
          exact (digitChar_spec n h).1
      · next h =>
          intro c hc
          simp at hc
          rcases hc with hc | hc
          · exact ih (n / 10) (Nat.div_lt_self (by omega) (by omega)) c hc
          · rw [hc]
            exact (digitChar_spec (n % 10) (Nat.mod_lt _ (by omega))).1

theorem digitsVal_append_singleton (l : List Char) (c : Char) :
    digitsVal (l ++ [c]) = 10 * digitsVal l + (c.toNat - 48) := by
  simp [digitsVal, List.foldl_append]

theorem digitsVal_natToDigits (n : Nat) : digitsVal (natToDigits n) = n := by
  induction n using Nat.strong_induction_on with
  | _ n ih =>
      rw [natToDigits]
      split
      · next h =>
          simp [digitsVal]
          rw [(digitChar_spec n h).2.1]
          omega
      · next h =>
          rw [digitsVal_append_singleton,
            ih (n / 10) (Nat.div_lt_self (by omega) (by omega)),
            (digitChar_spec (n % 10) (Nat.mod_lt _ (by omega))).2.1]
          omega

theorem takeWhile_all (p : Char → Bool) :
    ∀ l : List Char, (∀ c ∈ l, p c = true) → l.takeWhile p = l := by
  intro l
  induction l with
  | nil => intro _; rfl
  | cons c rest ih =>
      intro h
      rw [List.takeWhile_cons, if_pos (h c (by simp)),
        ih (fun x hx => h x (by simp [hx]))]

theorem digit_not_whitespace (c : Char) (h : c.isDigit = true) :
    c.isWhitespace = false := by
  by_contra hw
  simp at hw
  simp [Char.isWhitespace] at hw
  rcases hw with ((hw | hw) | hw) | hw <;> (try subst hw) <;>
    exact absurd h (by decide)

theorem digit_not_sign (c : Char) (h : c.isDigit = true) : c ≠ '-' ∧ c ≠ '+' := by
  constructor <;> (intro he; rw [he] at h; exact absurd h (by decide))

theorem natToString_ne_empty (n : Nat) : natToString n ≠ "" := by
  unfold natToString
  intro h
  exact natToDigits_ne_nil n (congrArg String.data h)

theorem jsParseInt_natToString (n : Nat) : jsParseInt (natToString n) = some (n : Int) := by
  obtain ⟨c, r, hcr⟩ := List.exists_cons_of_ne_nil (natToDigits_ne_nil n)
  have hdig : ∀ x ∈ natToDigits n, x.isDigit = true := natToDigits_digits n
  have hc : c.isDigit = true := hdig c (by rw [hcr]; simp)
  have hdrop : (natToString n).data.dropWhile (fun c => c.isWhitespace) = c :: r := by
    show (natToDigits n).dropWhile (fun c => c.isWhitespace) = c :: r
    rw [hcr]
    simp [List.dropWhile_cons, digit_not_whitespace c hc]
  have h1 : (c :: r).head? ≠ some '-' := by
    simp
    exact (digit_not_sign c hc).1
  have h2 : (c :: r).head? ≠ some '+' := by
    simp
    exact (digit_not_sign c hc).2
  simp only [jsParseInt]
  rw [hdrop, if_neg h1, if_neg h2]
  simp only [digitsPrefixVal]
  rw [show c :: r = natToDigits n from hcr.symm, takeWhile_all _ _ hdig,
    if_neg (by simp [natToDigits_ne_nil n]), digitsVal_natToDigits n]
  rfl

/-! ## Claim C8 -/

/-- C8.  `toGuestApiUrl` is idempotent on every URL-string, and on every
parseable URL that does not already contain the guest API marker it
preserves every query parameter (a duplicated key keeps its last value,
exactly as the `searchParams.set` copy loop does) and defaults the
pagination parameter `start` to `"0"` when it is absent. -/
theorem toGuestApiUrl_spec :
    (∀ url : UrlInput, toGuestApiUrl (toGuestApiUrl url) = toGuestApiUrl url) ∧
    (∀ u : Url, jsIncludes (urlToString u) apiMarker = false →
      toGuestApiUrl (.parsed u) = .parsed (rebuiltApiUrl u) ∧
      (∀ k v, lastParam u.params k = some v →
        getParam (rebuiltApiUrl u).params k = some v) ∧
      (getParam u.params "start" = none →
        getParam (rebuiltApiUrl u).params "start" = some "0")) := by
  have hmalformed : ∀ s, toGuestApiUrl (.malformed s) = .malformed s := by
    intro s
    unfold toGuestApiUrl
    split <;> rfl
  constructor
  · intro url
    cases url with
    | malformed s => rw [hmalformed, hmalformed]
    | parsed u =>
        by_cases h : jsIncludes (UrlInput.text (.parsed u)) apiMarker = true
        · have h1 : toGuestApiUrl (.parsed u) = .parsed u := by
            unfold toGuestApiUrl
            rw [if_pos h]
          rw [h1, h1]
        · have h1 : toGuestApiUrl (.parsed u) = .parsed (rebuiltApiUrl u) := by
            unfold toGuestApiUrl
            rw [if_neg h]
          rw [h1]
          unfold toGuestApiUrl
          simp only [UrlInput.text]
          rw [if_pos (marker_in_rebuilt u)]
  · intro u h
    refine ⟨?_, ?_, ?_⟩
    · unfold toGuestApiUrl
      rw [if_neg (by simp [UrlInput.text, h])]
    · exact fun k v hv => (apiParams_spec u.params).1 k v hv
    · exact fun h0 => (apiParams_spec u.params).2 h0

/-- A concrete user-supplied search URL for the C8 witness. -/
def searchUrlExample : Url :=
  { scheme := "https", host := "www.linkedin.com", path := "/jobs/search/",
    params := [("keywords", "rust")] }

/-- Witness for C8 at a concrete search URL and a concrete malformed string. -/
theorem toGuestApiUrl_spec_witness :
    jsIncludes (urlToString searchUrlExample) apiMarker = false ∧
    toGuestApiUrl (.parsed searchUrlExample) = .parsed (rebuiltApiUrl searchUrlExample) ∧
    getParam (rebuiltApiUrl searchUrlExample).params "start" = some "0" ∧
    toGuestApiUrl (toGuestApiUrl (.malformed "not a url")) =
      toGuestApiUrl (.malformed "not a url") :=
  ⟨by decide, (toGuestApiUrl_spec.2 searchUrlExample (by decide)).1,
    (toGuestApiUrl_spec.2 searchUrlExample (by decide)).2.2 (by decide),
    toGuestApiUrl_spec.1 _⟩

/-! ## Claim C10 -/

/-- C10.  Setting the `start` pagination parameter and reading it back
round-trips on every parseable URL (the value read back is the number that
was set, never `NaN`), and on a string the URL constructor rejects,
`setStartParam` is the identity while `getStartParam` returns 0. -/
theorem startParam_roundtrip :
    (∀ (u : Url) (n : Nat),
      getStartParam (setStartParam (.parsed u) n) = some (n : Int)) ∧
    (∀ (s : String) (n : Nat),
      setStartParam (.malformed s) n = .malformed s ∧
      getStartParam (.malformed s) = some 0) := by
  constructor
  · intro u n
    simp only [setStartParam, getStartParam, getParam_setParam_self]
    simp only [jsOrS]
    rw [if_neg (natToString_ne_empty n)]
    exact jsParseInt_natToString n
  · intro s n
    exact ⟨rfl, rfl⟩

/-! ## Claim C5 -/

/-- A page whose markup carries a job-description marker together with
every login-related string, fetched with HTTP status 401. -/
def blockedContentPage : Page :=
  { hasShowMoreLessMarkup := true, hasDescriptionText := false,
    hasCriteriaItem := false, hasCoreSection := false, hasDt := false,
    html := "authwall /login" }

/-- Counterexample to C5 as stated: the status-code check runs before the
positive-content check, so a page with recognizable job content fetched
with status 401 is still classified as a login wall; the claim asserts
`isLoginWall` returns false for every page with content markers. -/
theorem isLoginWall_content_counterexample :
    hasContentMarkers blockedContentPage = true ∧
    isLoginWall blockedContentPage 401 = true := by
  decide

/-- C5 (amended).  Unless the HTTP status is 401 or 403 — which the
classifier treats as blocked before looking at the markup — a page whose
markup contains recognizable job or company content is never classified
as a login wall, even when the markup also contains login-related strings
such as `authwall` or `/login`. -/
theorem isLoginWall_content_first (p : Page) (st : Int)
    (h401 : st ≠ 401) (h403 : st ≠ 403)
    (hc : hasContentMarkers p = true) :
    isLoginWall p st = false := by
  unfold isLoginWall
  rw [if_neg (by rintro (h | h) <;> simp_all)]
  rw [if_pos]
  unfold hasContentMarkers at hc
  rcases p with ⟨b1, b2, b3, b4, b5, html⟩
  simp at hc ⊢
  tauto

/-- Witness for C5 at a concrete content page with login markup and a
200 status. -/
theorem isLoginWall_content_first_witness :
    (200 : Int) ≠ 401 ∧ (200 : Int) ≠ 403 ∧
    hasContentMarkers blockedContentPage = true ∧
    isLoginWall blockedContentPage 200 = false :=
  ⟨by decide, by decide, by decide,
    isLoginWall_content_first blockedContentPage 200 (by decide) (by decide) (by decide)⟩

/-! ## Claim C9 -/

def lookupField (r : List (String × JVal)) (k : String) : Option JVal :=
  List.lookup k r

/-- C9.  Every record `pushResult` hands to the sink is one flat object
carrying exactly the 36 summary, detail and company field names in source
order (so no field is ever omitted); `salaryInfo` and `benefits` are
always arrays (empty rather than null when absent); `applyUrl` and
`salary` are always strings (empty rather than null when absent); and on
an input with no values at all, every remaining field is an explicit
null. -/
theorem pushRecord_shape :
    (∀ (g : String) (d : JobData),
      (pushRecord g d).map Prod.fst = outputFieldNames ∧
      (∃ xs, lookupField (pushRecord g d) "salaryInfo" = some (JVal.arr xs)) ∧
      (∃ xs, lookupField (pushRecord g d) "benefits" = some (JVal.arr xs)) ∧
      (∃ s, lookupField (pushRecord g d) "applyUrl" = some (JVal.str s)) ∧
      (∃ s, lookupField (pushRecord g d) "salary" = some (JVal.str s)) ∧
      (∀ k, k ∈ outputFieldNames → (lookupField (pushRecord g d) k).isSome = true)) ∧
    pushRecord "" {} =
      [ ("id", JVal.null), ("trackingId", JVal.null), ("refId", JVal.null),
        ("link", JVal.null), ("title", JVal.null), ("companyName", JVal.null),
        ("companyLinkedinUrl", JVal.null), ("companyLogo", JVal.null),
        ("location", JVal.null), ("salaryInfo", JVal.arr []),
        ("salary", JVal.str ""), ("postedAt", JVal.null),
        ("benefits", JVal.arr []), ("descriptionHtml", JVal.null),
        ("descriptionText", JVal.null), ("applicantsCount", JVal.null),
        ("applyUrl", JVal.str ""), ("jobPosterName", JVal.null),
        ("jobPosterTitle", JVal.null), ("jobPosterPhoto", JVal.null),
        ("jobPosterProfileUrl", JVal.null), ("seniorityLevel", JVal.null),
        ("employmentType", JVal.null), ("jobFunction", JVal.null),
        ("industries", JVal.null), ("inputUrl", JVal.null),
        ("companyDescription", JVal.null), ("companyWebsite", JVal.null),
        ("companyEmployeesCount", JVal.null), ("companyIndustry", JVal.null),
        ("companySpecialties", JVal.null), ("companyType", JVal.null),
        ("companyFounded", JVal.null), ("companyHeadquarters", JVal.null),
        ("companySlogan", JVal.null), ("companyAddress", JVal.null) ] := by
  constructor
  · intro g d
    refine ⟨rfl, ⟨d.salaryInfo.getD [], rfl⟩, ⟨d.benefits.getD [], rfl⟩,
      ⟨d.applyUrl.getD "", rfl⟩, ⟨jsOrS (salaryStr d) "", rfl⟩, ?_⟩
    intro k hk
    fin_cases hk <;> rfl
  · rfl

/-! ## Lemmas : map operations -/

theorem lookup_mapSet_self {β : Type} (m : List (String × β)) (k : String) (v : β) :
    List.lookup k (mapSet m k v) = some v := by
  induction m with
  | nil => simp [mapSet, List.lookup]
  | cons p rest ih =>
      obtain ⟨k1, v1⟩ := p
      by_cases h : k1 = k
      · simp [mapSet, List.lookup, h]
      · have h2 : (k == k1) = false := by
          simp
          exact fun he => h he.symm
        simp [mapSet, List.lookup, h, h2, ih]

theorem lookup_mapSet_ne {β : Type} (m : List (String × β)) (k k2 : String) (v : β)
    (h : k2 ≠ k) : List.lookup k2 (mapSet m k v) = List.lookup k2 m := by
  have hb : (k2 == k) = false := by
    simp
    exact h
  induction m with
  | nil => simp [mapSet, List.lookup, hb]
  | cons p rest ih =>
      obtain ⟨k1, v1⟩ := p
      by_cases h1 : k1 = k
      · subst h1
        simp [mapSet, List.lookup, hb]
      · by_cases h2 : k2 = k1 <;> simp [mapSet, List.lookup, h1, h2, ih]

theorem lookup_mapDelete_self {β : Type} (m : List (String × β)) (k : String) :
    List.lookup k (mapDelete m k) = none := by
  induction m with
  | nil => simp [mapDelete, List.lookup]
  | cons p rest ih =>
      obtain ⟨k1, v1⟩ := p
      by_cases h : k1 = k
      · simp [mapDelete, h, ih]
      · have h2 : (k == k1) = false := by
          simp
          exact fun he => h he.symm
        simp [mapDelete, List.lookup, h, h2, ih]

/-! ## Lemmas : the orchestrator invariant -/

/-- The run invariant: the sink length matches the budget counter, the
counter never exceeds the cap, the queue has accepted at most one request
per unique key, every accepted `COMPANY` request is keyed
`company-<slug>`, and the dispatch-or-push trace is duplicate-free and
contained in the id set. -/
structure Inv (cfg : Config) (s : St) : Prop where
  pushedLen : s.pushed.length = s.totalScraped
  budget : s.totalScraped ≤ cfg.maxItems
  dispNodup : (s.dispatched.map Request.uniqueKey).Nodup
  companyKey : ∀ r ∈ s.dispatched, ∀ slug jobs,
    r.data = ReqData.company slug jobs → r.uniqueKey = "company-" ++ slug
  pathNodup : s.pathTaken.Nodup
  pathScraped : ∀ a ∈ s.pathTaken, a ∈ s.scrapedIds

theorem inv_of_fields {cfg : Config} {s s' : St} (h : Inv cfg s)
    (h1 : s'.pushed = s.pushed) (h2 : s'.totalScraped = s.totalScraped)
    (h3 : s'.dispatched = s.dispatched) (h4 : s'.pathTaken = s.pathTaken)
    (h5 : s'.scrapedIds = s.scrapedIds) : Inv cfg s' := by
  constructor
  · rw [h1, h2]; exact h.pushedLen
  · rw [h2]; exact h.budget
  · rw [h3]; exact h.dispNodup
  · rw [h3]; exact h.companyKey
  · rw [h4]; exact h.pathNodup
  · rw [h4, h5]; exact h.pathScraped

theorem inv_pushResult {cfg : Config} {s : St} (j : Job) (h : Inv cfg s) :
    Inv cfg (pushResult cfg j s) := by
  unfold pushResult
  split
  · exact h
  · next hlt =>
      constructor
      · simp [h.pushedLen]
      · show s.totalScraped + 1 ≤ cfg.maxItems
        omega
      · exact h.dispNodup
      · exact h.companyKey
      · exact h.pathNodup
      · exact h.pathScraped

/-- A request is well-keyed when, if it is a COMPANY request, its unique
key is `company-<slug>`. -/
def WellKeyed (r : Request) : Prop :=
  ∀ slug jobs, r.data = ReqData.company slug jobs → r.uniqueKey = "company-" ++ slug

theorem inv_addRequest {cfg : Config} {s : St} (r : Request) (ff : Bool)
    (hwk : WellKeyed r) (h : Inv cfg s) : Inv cfg (addRequest s r ff).1 := by
  unfold addRequest
  split
  · exact h
  · next hnew =>
      constructor
      · exact h.pushedLen
      · exact h.budget
      · simp only [List.map_cons]
        exact List.nodup_cons.mpr ⟨hnew, h.dispNodup⟩
      · intro r' hr' slug jobs hdata
        rcases List.mem_cons.mp hr' with rfl | hr'
        · exact hwk slug jobs hdata
        · exact h.companyKey r' hr' slug jobs hdata
      · exact h.pathNodup
      · exact h.pathScraped

theorem wellKeyed_detail (c : Card) (job : Job) : WellKeyed (detailRequest c job) := by
  intro slug jobs hdata
  simp [detailRequest] at hdata

theorem wellKeyed_company (slug : String) (job : Job) :
    WellKeyed (companyRequest slug job) := by
  intro slug' jobs hdata
  simp [companyRequest] at hdata
  rw [companyRequest, hdata.1]

theorem inv_mark {cfg : Config} {s : St} (a : String) (h : Inv cfg s)
    (hfresh : a ∉ s.scrapedIds) :
    Inv cfg { s with scrapedIds := a :: s.scrapedIds, pathTaken := a :: s.pathTaken } := by
  constructor
  · exact h.pushedLen
  · exact h.budget
  · exact h.dispNodup
  · exact h.companyKey
  · exact List.nodup_cons.mpr ⟨fun hmem => hfresh (h.pathScraped a hmem), h.pathNodup⟩
  · intro b hb
    rcases List.mem_cons.mp hb with rfl | hb
    · exact List.mem_cons_self _ _
    · exact List.mem_cons_of_mem _ (h.pathScraped b hb)

theorem inv_processCards {cfg : Config} (inputU : String) (cards : List Card) :
    ∀ s : St, Inv cfg s → Inv cfg (processCards cfg inputU cards s) := by
  induction cards with
  | nil => intro s h; exact h
  | cons c rest ih =>
      intro s h
      unfold processCards
      split
      · exact h
      · split
        · exact ih s h
        · next hfresh =>
            split
            · exact ih _ (inv_addRequest _ _ (wellKeyed_detail c _)
                (inv_mark c.id h hfresh))
            · exact ih _ (inv_pushResult _ (inv_mark c.id h hfresh))

theorem inv_handleSearch {cfg : Config} (inputU : String) (resp : Resp) (s : St)
    (h : Inv cfg s) : Inv cfg (handleSearch cfg inputU resp s) := by
  unfold handleSearch
  split
  · exact h
  · split
    · exact inv_of_fields h rfl rfl rfl rfl rfl
    · split
      · exact h
      · split
        · exact h
        · exact inv_of_fields (inv_processCards _ _ s h) rfl rfl rfl rfl rfl

theorem inv_initOverflow {cfg : Config} {s : St} (slug : String) (h : Inv cfg s) :
    Inv cfg (initOverflow slug s) :=
  inv_of_fields h rfl rfl rfl rfl rfl

theorem inv_parkOverflow {cfg : Config} {s : St} (merged : Job) (slug : String)
    (h : Inv cfg s) : Inv cfg (parkOverflow merged slug s) :=
  inv_of_fields h rfl rfl rfl rfl rfl

theorem inv_joinCompany {cfg : Config} (merged : Job) (companyUrl : String)
    (s : St) (h : Inv cfg s) : Inv cfg (joinCompany cfg merged companyUrl s) := by
  unfold joinCompany
  split
  · split
    · split
      · exact inv_pushResult _ h
      · split
        · exact inv_initOverflow _ (inv_addRequest _ _ (wellKeyed_company _ _) h)
        · split
          · exact inv_pushResult _ (inv_addRequest _ _ (wellKeyed_company _ _) h)
          · exact inv_parkOverflow _ _ (inv_addRequest _ _ (wellKeyed_company _ _) h)
    · exact inv_pushResult _ h
  · exact inv_pushResult _ h

theorem inv_handleJobDetail {cfg : Config} (job : Job) (rc : Nat) (resp : Resp)
    (s : St) (h : Inv cfg s) : Inv cfg (handleJobDetail cfg job rc resp s).1 := by
  unfold handleJobDetail
  split
  · exact h
  · split
    · exact inv_of_fields h rfl rfl rfl rfl rfl
    · split
      · exact inv_pushResult _ h
      · split
        · exact inv_pushResult _ h
        · exact inv_of_fields (inv_joinCompany _ _ s h) rfl rfl rfl rfl rfl

theorem inv_set_queue {cfg : Config} {s : St} (q : List Request) (h : Inv cfg s) :
    Inv cfg { s with queue := q } :=
  inv_of_fields h rfl rfl rfl rfl rfl

theorem inv_set_sleeps {cfg : Config} {s : St} (l : List Nat) (h : Inv cfg s) :
    Inv cfg { s with sleeps := l } :=
  inv_of_fields h rfl rfl rfl rfl rfl

theorem inv_set_cache {cfg : Config} {s : St} (m : List (String × CompanyFields))
    (h : Inv cfg s) : Inv cfg { s with companyCache := m } :=
  inv_of_fields h rfl rfl rfl rfl rfl

theorem inv_set_pending {cfg : Config} {s : St} (m : List (String × List Job))
    (h : Inv cfg s) : Inv cfg { s with pendingCompanies := m } :=
  inv_of_fields h rfl rfl rfl rfl rfl

theorem inv_set_pending_sleeps {cfg : Config} {s : St} (m : List (String × List Job))
    (l : List Nat) (h : Inv cfg s) :
    Inv cfg { s with pendingCompanies := m, sleeps := l } :=
  inv_of_fields h rfl rfl rfl rfl rfl

theorem inv_foldl_push {cfg : Config} (f : Job → Job) (js : List Job) :
    ∀ s : St, Inv cfg s →
      Inv cfg (js.foldl (fun st j => pushResult cfg (f j) st) s) := by
  induction js with
  | nil => intro s h; exact h
  | cons j rest ih =>
      intro s h
      rw [List.foldl_cons]
      exact ih _ (inv_pushResult _ h)

theorem inv_finishCompany {cfg : Config} (slug : String) (jobs : List Job)
    (cdata : CompanyFields) (jit : Nat) (s : St) (h : Inv cfg s) :
    Inv cfg (finishCompany cfg slug jobs cdata jit s) := by
  simp only [finishCompany]
  exact inv_set_pending_sleeps _ _ (inv_foldl_push _ _ _
    (inv_foldl_push _ _ _ (inv_set_cache _ h)))

theorem inv_handleCompany {cfg : Config} (slug : String) (jobs : List Job)
    (rc : Nat) (resp : Resp) (s : St) (h : Inv cfg s) :
    Inv cfg (handleCompany cfg slug jobs rc resp s).1 := by
  unfold handleCompany
  split
  · split
    · exact inv_of_fields h rfl rfl rfl rfl rfl
    · exact inv_finishCompany _ _ _ _ _ h
  · split
    · exact inv_finishCompany _ _ _ _ _ h
    · split
      · exact h
      · exact inv_finishCompany _ _ _ _ _ h

theorem inv_failedRequestHandler {cfg : Config} (req : Request) (s : St)
    (h : Inv cfg s) : Inv cfg (failedRequestHandler cfg req s) := by
  simp only [failedRequestHandler]
  split
  · exact h
  · exact inv_pushResult _ h
  · exact inv_set_pending _ (inv_foldl_push _ _ _ (inv_set_cache _ h))

theorem inv_runHandler {cfg : Config} (req : Request) (resp : Resp) (s : St)
    (h : Inv cfg s) : Inv cfg (runHandler cfg req resp s).1 := by
  unfold runHandler
  split
  · exact inv_handleSearch _ _ _ h
  · exact inv_handleJobDetail _ _ _ _ h
  · exact inv_handleCompany _ _ _ _ _ h

theorem inv_processStep {cfg : Config} (req : Request) (resp : Resp) (s : St)
    (h : Inv cfg s) : Inv cfg (processStep cfg req resp s) := by
  have h1 := inv_runHandler req resp s h
  simp only [processStep]
  split
  · split
    · exact inv_set_queue _ h1
    · exact inv_failedRequestHandler _ _ h1
  · exact h1

theorem inv_stepAt {cfg : Config} (s : St) (i : Nat) (resp : Resp)
    (h : Inv cfg s) : Inv cfg (stepAt cfg s i resp) := by
  unfold stepAt
  split
  · exact h
  · exact inv_processStep _ _ _ (inv_set_queue _ h)

theorem inv_failStep {cfg : Config} (s : St) (i : Nat) (h : Inv cfg s) :
    Inv cfg (failStep cfg s i) := by
  simp only [failStep]
  split
  · exact h
  · split
    · exact inv_set_queue _ h
    · exact inv_failedRequestHandler _ _ (inv_set_queue _ h)

theorem inv_emptySt (cfg : Config) : Inv cfg emptySt := by
  constructor <;> simp [emptySt]

theorem inv_initSt (cfg : Config) (rs : List Request)
    (hsearch : ∀ r ∈ rs, ∃ lbl iu, r.data = ReqData.search lbl iu) :
    Inv cfg (initSt rs) := by
  unfold initSt
  have hgen : ∀ l : List Request,
      (∀ r ∈ l, ∃ lbl iu, r.data = ReqData.search lbl iu) →
      ∀ s : St, Inv cfg s →
        Inv cfg (l.foldl (fun s r => (addRequest s r false).1) s) := by
    intro l
    induction l with
    | nil => intro _ s h; exact h
    | cons r rest ih =>
        intro hl s h
        rw [List.foldl_cons]
        refine ih (fun r' hr' => hl r' (List.mem_cons_of_mem _ hr')) _
          (inv_addRequest r false ?_ h)
        obtain ⟨lbl, iu, hdata⟩ := hl r (List.mem_cons_self _ _)
        intro slug jobs hcomp
        rw [hdata] at hcomp
        cases hcomp
  exact hgen rs hsearch emptySt (inv_emptySt cfg)

theorem reach_inv {cfg : Config} {s : St} (h : Reach cfg s) : Inv cfg s := by
  induction h with
  | init rs hsearch => exact inv_initSt cfg rs hsearch
  | handle s i resp hs ih => exact inv_stepAt s i resp ih
  | fail s i hs ih => exact inv_failStep s i ih

/-! ## Lemmas : monotone evolution

`Mono s s'` says a step from `s` to `s'` can only increase the scraped
counter and only prepend newly accepted requests to the dispatch trace. -/

def Mono (s s' : St) : Prop :=
  s.totalScraped ≤ s'.totalScraped ∧ ∃ ds, s'.dispatched = ds ++ s.dispatched

theorem mono_refl (s : St) : Mono s s := ⟨Nat.le_refl _, [], rfl⟩

theorem mono_of_eq {s s' : St} (h1 : s'.totalScraped = s.totalScraped)
    (h2 : s'.dispatched = s.dispatched) : Mono s s' :=
  ⟨Nat.le_of_eq h1.symm, [], by rw [h2, List.nil_append]⟩

theorem mono_trans {a b c : St} (h1 : Mono a b) (h2 : Mono b c) : Mono a c := by
  obtain ⟨ht1, ds1, hd1⟩ := h1
  obtain ⟨ht2, ds2, hd2⟩ := h2
  exact ⟨Nat.le_trans ht1 ht2, ds2 ++ ds1, by rw [hd2, hd1, List.append_assoc]⟩

theorem mono_pushResult {cfg : Config} (j : Job) (s : St) :
    Mono s (pushResult cfg j s) := by
  unfold pushResult
  split
  · exact mono_refl s
  · exact ⟨Nat.le_succ _, [], rfl⟩

theorem mono_addRequest (s : St) (r : Request) (ff : Bool) :
    Mono s (addRequest s r ff).1 := by
  unfold addRequest
  split
  · exact mono_refl s
  · exact ⟨Nat.le_refl _, [r], rfl⟩

theorem mono_mark (s : St) (a : String) :
    Mono s { s with scrapedIds := a :: s.scrapedIds, pathTaken := a :: s.pathTaken } :=
  ⟨Nat.le_refl _, [], rfl⟩

theorem mono_processCards {cfg : Config} (inputU : String) (cards : List Card) :
    ∀ s : St, Mono s (processCards cfg inputU cards s) := by
  induction cards with
  | nil => intro s; exact mono_refl s
  | cons c rest ih =>
      intro s
      simp only [processCards]
      split
      · exact mono_refl s
      · split
        · exact ih s
        · split
          · refine mono_trans ?_ (ih _)
            exact mono_trans (mono_mark s c.id) (mono_addRequest _ _ _)
          · refine mono_trans ?_ (ih _)
            exact mono_trans (mono_mark s c.id) (mono_pushResult _ _)

theorem mono_handleSearch {cfg : Config} (inputU : String) (resp : Resp) (s : St) :
    Mono s (handleSearch cfg inputU resp s) := by
  unfold handleSearch
  split
  · exact mono_refl s
  · split
    · exact mono_of_eq rfl rfl
    · split
      · exact mono_refl s
      · split
        · exact mono_refl s
        · exact mono_trans (mono_processCards _ _ s) (mono_of_eq rfl rfl)

theorem mono_joinCompany {cfg : Config} (merged : Job) (companyUrl : String)
    (s : St) : Mono s (joinCompany cfg merged companyUrl s) := by
  unfold joinCompany
  split
  · split
    · split
      · exact mono_pushResult _ _
      · split
        · exact mono_trans (mono_addRequest _ _ _) (mono_of_eq rfl rfl)
        · split
          · exact mono_trans (mono_addRequest _ _ _) (mono_pushResult _ _)
          · exact mono_trans (mono_addRequest _ _ _) (mono_of_eq rfl rfl)
    · exact mono_pushResult _ _
  · exact mono_pushResult _ _

theorem mono_handleJobDetail {cfg : Config} (job : Job) (rc : Nat) (resp : Resp)
    (s : St) : Mono s (handleJobDetail cfg job rc resp s).1 := by
  unfold handleJobDetail
  split
  · exact mono_refl s
  · split
    · exact mono_of_eq rfl rfl
    · split
      · exact mono_pushResult _ _
      · split
        · exact mono_pushResult _ _
        · exact mono_trans (mono_joinCompany _ _ s) (mono_of_eq rfl rfl)

theorem mono_foldl_push {cfg : Config} (f : Job → Job) (js : List Job) :
    ∀ s : St, Mono s (js.foldl (fun st j => pushResult cfg (f j) st) s) := by
  induction js with
  | nil => intro s; exact mono_refl s
  | cons j rest ih =>
      intro s
      rw [List.foldl_cons]
      exact mono_trans (mono_pushResult _ _) (ih _)

theorem mono_finishCompany {cfg : Config} (slug : String) (jobs : List Job)
    (cdata : CompanyFields) (jit : Nat) (s : St) :
    Mono s (finishCompany cfg slug jobs cdata jit s) := by
  have h1 : Mono s { s with companyCache := mapSet s.companyCache slug cdata } :=
    ⟨Nat.le_refl _, [], rfl⟩
  have h2 := mono_trans h1 (@mono_foldl_push cfg (fun j => assignCompany j cdata) jobs _)
  have h3 := mono_trans h2 (@mono_foldl_push cfg (fun j => assignCompany j cdata)
    ((List.lookup slug (List.foldl (fun st j => pushResult cfg (assignCompany j cdata) st)
      { s with companyCache := mapSet s.companyCache slug cdata } jobs).pendingCompanies).getD []) _)
  simp only [finishCompany]
  exact mono_trans h3 ⟨Nat.le_refl _, [], rfl⟩

theorem mono_handleCompany {cfg : Config} (slug : String) (jobs : List Job)
    (rc : Nat) (resp : Resp) (s : St) :
    Mono s (handleCompany cfg slug jobs rc resp s).1 := by
  unfold handleCompany
  split
  · split
    · exact mono_of_eq rfl rfl
    · exact mono_finishCompany _ _ _ _ _
  · split
    · exact mono_finishCompany _ _ _ _ _
    · split
      · exact mono_refl s
      · exact mono_finishCompany _ _ _ _ _

theorem mono_failedRequestHandler {cfg : Config} (req : Request) (s : St) :
    Mono s (failedRequestHandler cfg req s) := by
  simp only [failedRequestHandler]
  split
  · exact mono_refl s
  · exact mono_pushResult _ _
  · next slug pendingJobs heq =>
      have h1 : Mono s { s with companyCache := mapSet s.companyCache slug [] } :=
        ⟨Nat.le_refl _, [], rfl⟩
      have h2 := mono_trans h1 (@mono_foldl_push cfg (fun j => j)
        (pendingJobs ++ (List.lookup slug s.pendingCompanies).getD []) _)
      exact mono_trans h2 ⟨Nat.le_refl _, [], rfl⟩

theorem mono_runHandler {cfg : Config} (req : Request) (resp : Resp) (s : St) :
    Mono s (runHandler cfg req resp s).1 := by
  unfold runHandler
  split
  · exact mono_handleSearch _ _ _
  · exact mono_handleJobDetail _ _ _ _
  · exact mono_handleCompany _ _ _ _ _

theorem mono_processStep {cfg : Config} (req : Request) (resp : Resp) (s : St) :
    Mono s (processStep cfg req resp s) := by
  simp only [processStep]
  split
  · split
    · exact mono_trans (mono_runHandler req resp s) (mono_of_eq rfl rfl)
    · exact mono_trans (mono_runHandler req resp s) (mono_failedRequestHandler _ _)
  · exact mono_runHandler req resp s

theorem mono_stepAt {cfg : Config} (s : St) (i : Nat) (resp : Resp) :
    Mono s (stepAt cfg s i resp) := by
  unfold stepAt
  split
  · exact mono_refl s
  · refine mono_trans ?_ (mono_processStep _ resp _)
    exact ⟨Nat.le_refl _, [], rfl⟩

theorem mono_failStep {cfg : Config} (s : St) (i : Nat) :
    Mono s (failStep cfg s i) := by
  simp only [failStep]
  split
  · exact mono_refl s
  · split
    · exact ⟨Nat.le_refl _, [], rfl⟩
    · refine mono_trans ?_ (mono_failedRequestHandler _ _)
      exact ⟨Nat.le_refl _, [], rfl⟩

/-! ## Lemmas : the cap makes pushes and dispatches no-ops -/

theorem pushResult_cap {cfg : Config} {s : St} (j : Job)
    (hcap : cfg.maxItems ≤ s.totalScraped) : pushResult cfg j s = s := by
  unfold pushResult
  rw [if_pos (Nat.le_of_eq rfl |>.trans hcap)]

theorem foldl_push_cap {cfg : Config} (f : Job → Job) (js : List Job) :
    ∀ s : St, cfg.maxItems ≤ s.totalScraped →
      js.foldl (fun st j => pushResult cfg (f j) st) s = s := by
  induction js with
  | nil => intro s _; rfl
  | cons j rest ih =>
      intro s hcap
      rw [List.foldl_cons, pushResult_cap _ hcap, ih s hcap]

theorem handleSearch_cap {cfg : Config} (inputU : String) (resp : Resp) (s : St)
    (hcap : cfg.maxItems ≤ s.totalScraped) :
    handleSearch cfg inputU resp s = s := by
  unfold handleSearch
  rw [if_pos hcap]

theorem handleJobDetail_cap {cfg : Config} (job : Job) (rc : Nat) (resp : Resp)
    (s : St) (hcap : cfg.maxItems ≤ s.totalScraped) :
    handleJobDetail cfg job rc resp s = (s, false) := by
  unfold handleJobDetail
  rw [if_pos hcap]

theorem finishCompany_cap {cfg : Config} (slug : String) (jobs : List Job)
    (cdata : CompanyFields) (jit : Nat) (s : St)
    (hcap : cfg.maxItems ≤ s.totalScraped) :
    (finishCompany cfg slug jobs cdata jit s).pushed = s.pushed ∧
    (finishCompany cfg slug jobs cdata jit s).dispatched = s.dispatched ∧
    (finishCompany cfg slug jobs cdata jit s).totalScraped = s.totalScraped := by
  simp only [finishCompany]
  generalize hCS : ({ s with companyCache := mapSet s.companyCache slug cdata } : St) = CS
  have hcap2 : cfg.maxItems ≤ CS.totalScraped := by
    rw [← hCS]
    exact hcap
  rw [foldl_push_cap _ jobs CS hcap2,
    foldl_push_cap _ ((List.lookup slug CS.pendingCompanies).getD []) CS hcap2]
  subst hCS
  exact ⟨rfl, rfl, rfl⟩

theorem handleCompany_cap {cfg : Config} (slug : String) (jobs : List Job)
    (rc : Nat) (resp : Resp) (s : St) (hcap : cfg.maxItems ≤ s.totalScraped) :
    (handleCompany cfg slug jobs rc resp s).1.pushed = s.pushed ∧
    (handleCompany cfg slug jobs rc resp s).1.dispatched = s.dispatched ∧
    (handleCompany cfg slug jobs rc resp s).1.totalScraped = s.totalScraped := by
  unfold handleCompany
  split
  · split
    · exact ⟨rfl, rfl, rfl⟩
    · exact finishCompany_cap _ _ _ _ _ hcap
  · split
    · exact finishCompany_cap _ _ _ _ _ hcap
    · split
      · exact ⟨rfl, rfl, rfl⟩
      · exact finishCompany_cap _ _ _ _ _ hcap

theorem failedRequestHandler_cap {cfg : Config} (req : Request) (s : St)
    (hcap : cfg.maxItems ≤ s.totalScraped) :
    (failedRequestHandler cfg req s).pushed = s.pushed ∧
    (failedRequestHandler cfg req s).dispatched = s.dispatched ∧
    (failedRequestHandler cfg req s).totalScraped = s.totalScraped := by
  simp only [failedRequestHandler]
  split
  · exact ⟨rfl, rfl, rfl⟩
  · rw [pushResult_cap _ hcap]
    exact ⟨rfl, rfl, rfl⟩
  · next slug pendingJobs heq =>
      generalize hCS : ({ s with companyCache := mapSet s.companyCache slug [] } : St) = CS
      have hcap2 : cfg.maxItems ≤ CS.totalScraped := by
        rw [← hCS]
        exact hcap
      rw [foldl_push_cap (fun j => j)
        (pendingJobs ++ (List.lookup slug s.pendingCompanies).getD []) CS hcap2]
      subst hCS
      exact ⟨rfl, rfl, rfl⟩

theorem runHandler_cap {cfg : Config} (req : Request) (resp : Resp) (s : St)
    (hcap : cfg.maxItems ≤ s.totalScraped) :
    (runHandler cfg req resp s).1.pushed = s.pushed ∧
    (runHandler cfg req resp s).1.dispatched = s.dispatched ∧
    (runHandler cfg req resp s).1.totalScraped = s.totalScraped := by
  unfold runHandler
  split
  · rw [handleSearch_cap _ _ _ hcap]
    exact ⟨rfl, rfl, rfl⟩
  · rw [handleJobDetail_cap _ _ _ _ hcap]
    exact ⟨rfl, rfl, rfl⟩
  · exact handleCompany_cap _ _ _ _ _ hcap

theorem processStep_cap {cfg : Config} (req : Request) (resp : Resp) (s : St)
    (hcap : cfg.maxItems ≤ s.totalScraped) :
    (processStep cfg req resp s).pushed = s.pushed ∧
    (processStep cfg req resp s).dispatched = s.dispatched ∧
    (processStep cfg req resp s).totalScraped = s.totalScraped := by
  obtain ⟨hp, hd, ht⟩ := runHandler_cap req resp s hcap
  simp only [processStep]
  split
  · split
    · exact ⟨hp, hd, ht⟩
    · obtain ⟨hp2, hd2, ht2⟩ := failedRequestHandler_cap req (runHandler cfg req resp s).1
        (by rw [ht]; exact hcap)
      exact ⟨hp2.trans hp, hd2.trans hd, ht2.trans ht⟩
  · exact ⟨hp, hd, ht⟩

theorem stepAt_cap {cfg : Config} (s : St) (i : Nat) (resp : Resp)
    (hcap : cfg.maxItems ≤ s.totalScraped) :
    (stepAt cfg s i resp).pushed = s.pushed ∧
    (stepAt cfg s i resp).dispatched = s.dispatched ∧
    (stepAt cfg s i resp).totalScraped = s.totalScraped := by
  unfold stepAt
  split
  · exact ⟨rfl, rfl, rfl⟩
  · exact processStep_cap _ resp _ hcap

theorem failStep_cap {cfg : Config} (s : St) (i : Nat)
    (hcap : cfg.maxItems ≤ s.totalScraped) :
    (failStep cfg s i).pushed = s.pushed ∧
    (failStep cfg s i).dispatched = s.dispatched ∧
    (failStep cfg s i).totalScraped = s.totalScraped := by
  simp only [failStep]
  split
  · exact ⟨rfl, rfl, rfl⟩
  · split
    · exact ⟨rfl, rfl, rfl⟩
    · exact failedRequestHandler_cap _ _ hcap

/-! ## Claim C2 -/

/-- C2.  The budget counter is monotonically non-decreasing across every
scheduler step; in every reachable state the number of records pushed to
the sink equals the counter and never exceeds `maxItems` (which also
bounds it by `maxItems` plus any number of in-flight fetches); and once
the counter has reached `maxItems`, every subsequent step leaves both the
sink and the dispatch trace unchanged — all push operations and all
dispatches of new fetch requests are no-ops. -/
theorem budget_respected (cfg : Config) :
    (∀ s, Reach cfg s →
      s.pushed.length = s.totalScraped ∧ s.totalScraped ≤ cfg.maxItems) ∧
    (∀ s (i : Nat) (resp : Resp),
      s.totalScraped ≤ (stepAt cfg s i resp).totalScraped ∧
      s.totalScraped ≤ (failStep cfg s i).totalScraped) ∧
    (∀ s (i : Nat) (resp : Resp), cfg.maxItems ≤ s.totalScraped →
      (stepAt cfg s i resp).pushed = s.pushed ∧
      (stepAt cfg s i resp).dispatched = s.dispatched ∧
      (failStep cfg s i).pushed = s.pushed ∧
      (failStep cfg s i).dispatched = s.dispatched) := by
  refine ⟨?_, ?_, ?_⟩
  · intro s hs
    exact ⟨(reach_inv hs).pushedLen, (reach_inv hs).budget⟩
  · intro s i resp
    exact ⟨(mono_stepAt s i resp).1, (mono_failStep s i).1⟩
  · intro s i resp hcap
    obtain ⟨h1, h2, _⟩ := stepAt_cap s i resp hcap
    obtain ⟨h3, h4, _⟩ := failStep_cap s i hcap
    exact ⟨h1, h2, h3, h4⟩

/-- The configuration and initial state used by the orchestration
witnesses. -/
def cfgW : Config :=
  { maxItems := 0, scrapeJobDetails := true, scrapeCompany := true,
    globalInputUrl := "" }

def searchReqW : Request :=
  { uniqueKey := "https://www.linkedin.com/jobs-guest/jobs/api/seeMoreJobPostings/search?start=0",
    data := .search "" "", retryCount := 0 }

def respW : Resp :=
  { status := 200, cards := [], loginWall := false, detail := [],
    company := [], jitter := 0 }

/-- Witness for C2: the initial state of a concrete zero-budget run is
reachable, its counter is at the cap, and the cap conjunct applies to a
concrete step. -/
theorem budget_respected_witness :
    ((initSt [searchReqW]).pushed.length = (initSt [searchReqW]).totalScraped ∧
      (initSt [searchReqW]).totalScraped ≤ cfgW.maxItems) ∧
    ((initSt [searchReqW]).totalScraped ≤
        (stepAt cfgW (initSt [searchReqW]) 0 respW).totalScraped) ∧
    cfgW.maxItems ≤ (initSt [searchReqW]).totalScraped ∧
    (stepAt cfgW (initSt [searchReqW]) 0 respW).pushed = (initSt [searchReqW]).pushed :=
  ⟨(budget_respected cfgW).1 _ (Reach.init [searchReqW]
      (by intro r hr; simp at hr; rw [hr]; exact ⟨"", "", rfl⟩)),
    ((budget_respected cfgW).2.1 _ 0 respW).1,
    by decide,
    ((budget_respected cfgW).2.2 _ 0 respW (by decide)).1⟩

/-! ## Claim C6 -/

/-- C6.  When the fetch of a queued SEARCH request completes with status
429 (and the budget is not yet exhausted), the step leaves the state
unchanged except that the request is consumed and a 5000 ms pause is
logged: no child request is dispatched, nothing is pushed, the request is
not re-enqueued (no retry of that pagination offset), and every other
queued request — in particular every SEARCH page at another offset — is
untouched and continues independently. -/
theorem search_rate_limited (cfg : Config) (s : St) (i : Nat) (resp : Resp)
    (req : Request) (lbl iu : String)
    (hreq : s.queue.get? i = some req) (hdata : req.data = ReqData.search lbl iu)
    (h429 : resp.status = 429) (hb : s.totalScraped < cfg.maxItems) :
    stepAt cfg s i resp =
      { s with queue := s.queue.eraseIdx i, sleeps := s.sleeps ++ [5000] } := by
  unfold stepAt
  rw [hreq]
  simp only [processStep, runHandler, hdata]
  have hb2 : ¬(({ s with queue := s.queue.eraseIdx i } : St).totalScraped ≥ cfg.maxItems) := by
    simp
    omega
  unfold handleSearch
  rw [if_neg hb2, if_pos h429]
  rfl

/-- A small-budget configuration for witnesses. -/
def cfgSmall : Config :=
  { maxItems := 7, scrapeJobDetails := true, scrapeCompany := true,
    globalInputUrl := "" }

/-- A rate-limited response. -/
def resp429 : Resp :=
  { status := 429, cards := [], loginWall := false, detail := [],
    company := [], jitter := 0 }

/-- The expected state after the C6 witness step. -/
def searchRateLimitedExpected : St :=
  { initSt [searchReqW] with queue := (initSt [searchReqW]).queue.eraseIdx 0, sleeps := (initSt [searchReqW]).sleeps ++ [5000] }

/-- Witness for C6: a concrete one-request queue, rate-limited. -/
theorem search_rate_limited_witness :
    (initSt [searchReqW]).queue.get? 0 = some searchReqW ∧
    searchReqW.data = ReqData.search "" "" ∧
    resp429.status = 429 ∧
    (initSt [searchReqW]).totalScraped < cfgSmall.maxItems ∧
    stepAt cfgSmall (initSt [searchReqW]) 0 resp429 = searchRateLimitedExpected :=
  ⟨by decide, rfl, rfl, by decide,
    by exact search_rate_limited cfgSmall _ 0 resp429 searchReqW "" "" (by decide) rfl rfl (by decide)⟩

/-! ## Claim C7 -/

/-- C7.  For a completed JOB_DETAIL fetch (with budget remaining): a 429
or 999 status makes the handler sleep a backoff and throw the retry
signal without pushing anything; a login-wall classification, or any
other non-success status, makes it push exactly the summary record stored
in the request (the `cardData`, carrying no detail fields) and finish
normally — the job is neither dropped nor allowed to fail the run, and
its pipeline dispatches nothing further. -/
theorem detail_degraded_or_retried (cfg : Config) (job : Job) (k : String)
    (rc : Nat) (resp : Resp) (s : St) (hb : s.totalScraped < cfg.maxItems) :
    ((resp.status = 429 ∨ resp.status = 999) →
      runHandler cfg { uniqueKey := k, data := .detail job, retryCount := rc } resp s =
        ({ s with sleeps := s.sleeps ++ [rc * 3000 + resp.jitter] }, true)) ∧
    (¬(resp.status = 429 ∨ resp.status = 999) → resp.loginWall = true →
      runHandler cfg { uniqueKey := k, data := .detail job, retryCount := rc } resp s =
        ({ s with pushed := s.pushed ++ [job], totalScraped := s.totalScraped + 1 }, false)) ∧
    (¬(resp.status = 429 ∨ resp.status = 999) → resp.loginWall = false →
      resp.status ≠ 200 →
      runHandler cfg { uniqueKey := k, data := .detail job, retryCount := rc } resp s =
        ({ s with pushed := s.pushed ++ [job], totalScraped := s.totalScraped + 1 }, false)) := by
  have hb2 : ¬(s.totalScraped ≥ cfg.maxItems) := by omega
  refine ⟨?_, ?_, ?_⟩
  · intro hrl
    show handleJobDetail cfg job rc resp s = _
    unfold handleJobDetail
    rw [if_neg hb2, if_pos hrl]
  · intro hrl hwall
    show handleJobDetail cfg job rc resp s = _
    unfold handleJobDetail
    rw [if_neg hb2, if_neg hrl, if_pos hwall]
    unfold pushResult
    rw [if_neg hb2]
  · intro hrl hwall hstat
    show handleJobDetail cfg job rc resp s = _
    unfold handleJobDetail
    rw [if_neg hb2, if_neg hrl, if_neg (by simp [hwall]), if_pos hstat]
    unfold pushResult
    rw [if_neg hb2]

/-- A concrete summary-only job record for the C7 witness. -/
def jobW : Job :=
  mkCardJob { id := "12345678", companyLinkedinUrl := "", fields := [] } ""

/-- A login-walled detail response. -/
def respWall : Resp :=
  { status := 403, cards := [], loginWall := true, detail := [],
    company := [], jitter := 0 }

/-- The concrete detail request of the C7 witness. -/
def detailReqW : Request :=
  { uniqueKey := "detail-12345678", data := .detail jobW, retryCount := 0 }

/-- The expected state after the C7 witness step: the summary record is
pushed as-is. -/
def detailDegradedExpected : St :=
  { emptySt with pushed := emptySt.pushed ++ [jobW], totalScraped := emptySt.totalScraped + 1 }

/-- Witness for C7 at a concrete login-walled detail response. -/
theorem detail_degraded_or_retried_witness :
    (emptySt.totalScraped < cfgSmall.maxItems) ∧
    ¬(respWall.status = 429 ∨ respWall.status = 999) ∧
    respWall.loginWall = true ∧
    runHandler cfgSmall detailReqW respWall emptySt = (detailDegradedExpected, false) :=
  ⟨by decide, by decide, rfl,
    by exact (detail_degraded_or_retried cfgSmall jobW "detail-12345678" 0 respWall emptySt
      (by decide)).2.1 (by decide) rfl⟩

/-! ## Lemmas : counting COMPANY requests -/

/-- The request is a COMPANY fetch for this slug. -/
def isCompanyFor (slug : String) (r : Request) : Bool :=
  match r.data with
  | .company s _ => s == slug
  | _ => false

/-- How many COMPANY fetch requests for this slug were ever accepted. -/
def countCompanyFor (l : List Request) (slug : String) : Nat :=
  (l.filter (isCompanyFor slug)).length

theorem isCompanyFor_iff (slug : String) (r : Request) :
    isCompanyFor slug r = true ↔ ∃ jobs, r.data = ReqData.company slug jobs := by
  cases hr : r.data with
  | search lbl iu => simp [isCompanyFor, hr]
  | detail job => simp [isCompanyFor, hr]
  | company s jobs => simp [isCompanyFor, hr]

theorem countCompanyFor_zero (l : List Request) (slug : String)
    (hkey : ∀ r ∈ l, ∀ s jobs, r.data = ReqData.company s jobs →
      r.uniqueKey = "company-" ++ s)
    (habs : "company-" ++ slug ∉ l.map Request.uniqueKey) :
    countCompanyFor l slug = 0 := by
  unfold countCompanyFor
  rw [List.length_eq_zero, List.filter_eq_nil]
  intro r hr hc
  obtain ⟨jobs, hdata⟩ := (isCompanyFor_iff slug r).mp hc
  exact habs (List.mem_map.mpr ⟨r, hr, hkey r hr slug jobs hdata⟩)

theorem countCompanyFor_le_one (l : List Request) (slug : String)
    (hnd : (l.map Request.uniqueKey).Nodup)
    (hkey : ∀ r ∈ l, ∀ s jobs, r.data = ReqData.company s jobs →
      r.uniqueKey = "company-" ++ s) :
    countCompanyFor l slug ≤ 1 := by
  induction l with
  | nil => simp [countCompanyFor]
  | cons r rest ih =>
      simp only [List.map_cons, List.nodup_cons] at hnd
      obtain ⟨hnotin, hnd2⟩ := hnd
      have hkeyrest : ∀ r' ∈ rest, ∀ s jobs, r'.data = ReqData.company s jobs →
          r'.uniqueKey = "company-" ++ s :=
        fun r' hr' => hkey r' (List.mem_cons_of_mem _ hr')
      by_cases hc : isCompanyFor slug r = true
      · obtain ⟨jobs, hdata⟩ := (isCompanyFor_iff slug r).mp hc
        have hrkey : r.uniqueKey = "company-" ++ slug :=
          hkey r (List.mem_cons_self _ _) slug jobs hdata
        have hzero : countCompanyFor rest slug = 0 := by
          refine countCompanyFor_zero rest slug hkeyrest ?_
          rw [← hrkey]
          exact hnotin
        unfold countCompanyFor at hzero ⊢
        rw [List.filter_cons, if_pos hc]
        simp [hzero]
      · unfold countCompanyFor at ih ⊢
        rw [List.filter_cons, if_neg hc]
        exact ih hnd2 hkeyrest

/-! ## Lemmas : the first join dispatches exactly one COMPANY request -/

theorem addRequest_fresh (s : St) (r : Request)
    (hkey : r.uniqueKey ∉ s.dispatched.map Request.uniqueKey) :
    addRequest s r false =
      ({ s with queue := s.queue ++ [r], dispatched := r :: s.dispatched }, false) := by
  unfold addRequest
  rw [if_neg hkey]
  rfl

theorem joinCompany_first (cfg : Config) (merged : Job) (companyUrl slug : String)
    (s : St) (hcomp : cfg.scrapeCompany = true) (hurl : companyUrl ≠ "")
    (hslug : extractCompanySlug companyUrl = some slug)
    (hcache : List.lookup slug s.companyCache = none)
    (hkey : "company-" ++ slug ∉ s.dispatched.map Request.uniqueKey) :
    (joinCompany cfg merged companyUrl s).dispatched =
      companyRequest slug merged :: s.dispatched := by
  have hadd := addRequest_fresh s (companyRequest slug merged) hkey
  unfold joinCompany
  rw [if_pos (⟨hcomp, hurl⟩ : cfg.scrapeCompany = true ∧ companyUrl ≠ "")]
  simp only [hslug, hcache, hadd, initOverflow]
  simp

/-! ## Lemmas : draining the pending join under sufficient budget -/

theorem pushResult_under (cfg : Config) (j : Job) (s : St)
    (hb : s.totalScraped < cfg.maxItems) :
    pushResult cfg j s =
      { s with pushed := s.pushed ++ [j], totalScraped := s.totalScraped + 1 } := by
  unfold pushResult
  rw [if_neg (by omega)]

theorem foldl_push_budget (cfg : Config) (f : Job → Job) (js : List Job) :
    ∀ s : St, s.totalScraped + js.length ≤ cfg.maxItems →
      (js.foldl (fun st j => pushResult cfg (f j) st) s).pushed = s.pushed ++ js.map f ∧
      (js.foldl (fun st j => pushResult cfg (f j) st) s).totalScraped = s.totalScraped + js.length ∧
      (js.foldl (fun st j => pushResult cfg (f j) st) s).companyCache = s.companyCache ∧
      (js.foldl (fun st j => pushResult cfg (f j) st) s).pendingCompanies = s.pendingCompanies ∧
      (js.foldl (fun st j => pushResult cfg (f j) st) s).dispatched = s.dispatched ∧
      (js.foldl (fun st j => pushResult cfg (f j) st) s).queue = s.queue := by
  induction js with
  | nil =>
      intro s _
      simp
  | cons j rest ih =>
      intro s h
      have hb : s.totalScraped < cfg.maxItems := by
        simp at h
        omega
      obtain ⟨p1, p2, p3, p4, p5, p6⟩ :=
        ih { s with pushed := s.pushed ++ [f j], totalScraped := s.totalScraped + 1 }
          (by simp at h ⊢; omega)
      rw [List.foldl_cons, pushResult_under cfg (f j) s hb]
      refine ⟨?_, ?_, ?_, ?_, ?_, ?_⟩
      · rw [p1]
        simp
      · rw [p2]
        simp
        omega
      · rw [p3]
      · rw [p4]
      · rw [p5]
      · rw [p6]

theorem finishCompany_spec (cfg : Config) (slug : String) (jobs : List Job)
    (cdata : CompanyFields) (jit : Nat) (s : St)
    (hb : s.totalScraped +
      (jobs.length + ((List.lookup slug s.pendingCompanies).getD []).length) ≤ cfg.maxItems) :
    (finishCompany cfg slug jobs cdata jit s).pushed =
      s.pushed ++ (jobs ++ (List.lookup slug s.pendingCompanies).getD []).map
        (fun j => assignCompany j cdata) ∧
    List.lookup slug (finishCompany cfg slug jobs cdata jit s).companyCache = some cdata ∧
    List.lookup slug (finishCompany cfg slug jobs cdata jit s).pendingCompanies = none ∧
    (finishCompany cfg slug jobs cdata jit s).dispatched = s.dispatched := by
  simp only [finishCompany]
  set CS := ({ s with companyCache := mapSet s.companyCache slug cdata } : St) with hCS
  have c1 : CS.pushed = s.pushed := by rw [hCS]
  have c2 : CS.totalScraped = s.totalScraped := by rw [hCS]
  have c3 : CS.companyCache = mapSet s.companyCache slug cdata := by rw [hCS]
  have c4 : CS.pendingCompanies = s.pendingCompanies := by rw [hCS]
  have c5 : CS.dispatched = s.dispatched := by rw [hCS]
  set F1 := List.foldl (fun st j => pushResult cfg (assignCompany j cdata) st) CS jobs with hF1
  obtain ⟨p1, p2, p3, p4, p5, p6⟩ := foldl_push_budget cfg (fun j => assignCompany j cdata)
    jobs CS (by rw [c2]; omega)
  rw [← hF1] at p1 p2 p3 p4 p5 p6
  have hov : (List.lookup slug F1.pendingCompanies).getD [] =
      (List.lookup slug s.pendingCompanies).getD [] := by
    rw [p4, c4]
  rw [hov]
  set OV := (List.lookup slug s.pendingCompanies).getD [] with hOV
  set F2 := List.foldl (fun st j => pushResult cfg (assignCompany j cdata) st) F1 OV with hF2
  obtain ⟨q1, q2, q3, q4, q5, q6⟩ := foldl_push_budget cfg (fun j => assignCompany j cdata)
    OV F1 (by rw [p2, c2]; omega)
  rw [← hF2] at q1 q2 q3 q4 q5 q6
  refine ⟨?_, ?_, ?_, ?_⟩
  · show F2.pushed = _
    rw [q1, p1, c1]
    simp
  · show List.lookup slug F2.companyCache = _
    rw [q3, p3, c3]
    exact lookup_mapSet_self _ _ _
  · show List.lookup slug (mapDelete F2.pendingCompanies slug) = _
    exact lookup_mapDelete_self _ _
  · show F2.dispatched = s.dispatched
    rw [q5, p5, c5]

/-- C1 (amended).  At-most-once company fetch: in every reachable state at
most one COMPANY request per slug was ever accepted by the queue; the first
successful JOB_DETAIL completion for a slug (cache miss, no prior
`company-<slug>` dispatch) enqueues exactly one COMPANY request; and when
the COMPANY fetch resolves with a 200 non-wall page while enough budget
remains, the handler does not throw, every passenger and overflow record is
pushed, and they all carry the same resolved company fields recorded in the
cache.  (The original "all N records are eventually pushed" is refuted
separately: the budget guard of `pushResult` drops parked records once
`totalScraped` reaches `maxItems`.) -/
theorem company_fetch_once (cfg : Config) :
    (∀ s, Reach cfg s → ∀ slug, countCompanyFor s.dispatched slug ≤ 1) ∧
    (∀ s job rc resp slug, Reach cfg s →
      s.totalScraped < cfg.maxItems →
      resp.status = 200 → resp.loginWall = false →
      cfg.scrapeCompany = true → job.card.companyLinkedinUrl ≠ "" →
      extractCompanySlug job.card.companyLinkedinUrl = some slug →
      List.lookup slug s.companyCache = none →
      "company-" ++ slug ∉ s.dispatched.map Request.uniqueKey →
      countCompanyFor (handleJobDetail cfg job rc resp s).1.dispatched slug = 1) ∧
    (∀ s slug jobs rc resp, resp.status = 200 → resp.loginWall = false →
      s.totalScraped +
        (jobs.length + ((List.lookup slug s.pendingCompanies).getD []).length) ≤ cfg.maxItems →
      (handleCompany cfg slug jobs rc resp s).2 = false ∧
      (handleCompany cfg slug jobs rc resp s).1.pushed =
        s.pushed ++ (jobs ++ (List.lookup slug s.pendingCompanies).getD []).map
          (fun j => assignCompany j resp.company) ∧
      List.lookup slug (handleCompany cfg slug jobs rc resp s).1.companyCache =
        some resp.company) := by
  refine ⟨?_, ?_, ?_⟩
  · intro s hs slug
    have hinv := reach_inv hs
    exact countCompanyFor_le_one _ _ hinv.dispNodup hinv.companyKey
  · intro s job rc resp slug hs hb h200 hwall hcomp hurl hslug hcache hkey
    have hinv := reach_inv hs
    have hmerge := joinCompany_first cfg { job with detailFields := some resp.detail }
      job.card.companyLinkedinUrl slug s hcomp hurl hslug hcache hkey
    unfold handleJobDetail
    rw [if_neg (by omega), if_neg (by rw [h200]; decide), if_neg (by simp [hwall]),
      if_neg (by simp [h200])]
    show countCompanyFor (joinCompany cfg { job with detailFields := some resp.detail }
      job.card.companyLinkedinUrl s).dispatched slug = 1
    rw [hmerge]
    have h0 := countCompanyFor_zero s.dispatched slug hinv.companyKey hkey
    have hcr : isCompanyFor slug
        (companyRequest slug { job with detailFields := some resp.detail }) = true := by
      simp [isCompanyFor, companyRequest]
    unfold countCompanyFor at h0 ⊢
    rw [List.filter_cons, if_pos hcr, List.length_cons, h0]
  · intro s slug jobs rc resp h200 hwall hb
    obtain ⟨f1, f2, f3, f4⟩ := finishCompany_spec cfg slug jobs resp.company resp.jitter s hb
    unfold handleCompany
    rw [if_neg (by rw [h200]; decide), if_pos (⟨h200, hwall⟩ :
      resp.status = 200 ∧ resp.loginWall = false)]
    exact ⟨rfl, f1, f2⟩

def cfgC1W : Config :=
  { maxItems := 5, scrapeJobDetails := true, scrapeCompany := true, globalInputUrl := "" }

def jobC1W : Job :=
  { card := { id := "J1", companyLinkedinUrl := "https://www.linkedin.com/company/acme",
              fields := [] },
    inputUrl := "", detailFields := none, companyFields := [] }

def respC1W : Resp :=
  { status := 200, cards := [], loginWall := false, detail := [],
    company := [("companyName", "Acme")], jitter := 0 }

/-- C1 witness: on the empty initial state (reachable), a successful
JOB_DETAIL completion for the acme job dispatches exactly one
`company-acme` request. -/
theorem company_fetch_once_witness :
    countCompanyFor (handleJobDetail cfgC1W jobC1W 0 respC1W (initSt [])).1.dispatched
      "acme" = 1 :=
  (company_fetch_once cfgC1W).2.1 (initSt []) jobC1W 0 respC1W "acme"
    (Reach.init [] (by intro r hr; simp at hr))
    (by decide) rfl rfl rfl (by decide) (by decide) (by decide) (by decide)

def cfgC1 : Config :=
  { maxItems := 1, scrapeJobDetails := true, scrapeCompany := true, globalInputUrl := "" }

def cardA1 : Card :=
  { id := "A", companyLinkedinUrl := "https://www.linkedin.com/company/acme", fields := [] }

def cardB1 : Card :=
  { id := "B", companyLinkedinUrl := "https://www.linkedin.com/company/acme", fields := [] }

def respSearchC1 : Resp :=
  { status := 200, cards := [cardA1, cardB1], loginWall := false, detail := [],
    company := [], jitter := 0 }

def respDetailC1 : Resp :=
  { status := 200, cards := [], loginWall := false, detail := [("d", "1")],
    company := [], jitter := 0 }

def respCompanyC1 : Resp :=
  { status := 200, cards := [], loginWall := false, detail := [],
    company := [("companyDescription", "x")], jitter := 0 }

def reqSearchC1 : Request :=
  { uniqueKey := "https://s", data := .search "" "", retryCount := 0 }

def stC1a : St := initSt [reqSearchC1]

def stC1b : St := stepAt cfgC1 stC1a 0 respSearchC1

def stC1c : St := stepAt cfgC1 stC1b 1 respDetailC1

def stC1d : St := stepAt cfgC1 stC1c 0 respDetailC1

def stC1e : St := stepAt cfgC1 stC1d 0 respCompanyC1

/-- C1 counterexample: with `maxItems = 1`, two cards A and B of the same
company slug both complete their JOB_DETAIL step (B is parked as the
COMPANY passenger, A in the overflow list); the run completes (empty
queue), exactly one COMPANY request was issued, yet only one of the two
records is ever pushed — B is dropped by the budget guard, refuting "all N
records are eventually pushed". -/
theorem company_fetch_once_counterexample :
    Reach cfgC1 stC1e ∧
    stC1e.queue = [] ∧
    countCompanyFor stC1e.dispatched "acme" = 1 ∧
    "A" ∈ stC1e.scrapedIds ∧ "B" ∈ stC1e.scrapedIds ∧
    stC1e.pushed.map (fun j => j.card.id) = ["A"] ∧
    "B" ∉ stC1e.pushed.map (fun j => j.card.id) ∧
    List.lookup "acme" stC1e.companyCache = some [("companyDescription", "x")] := by
  refine ⟨?_, by decide, by decide, by decide, by decide, by decide, by decide, by decide⟩
  have hsearch : ∀ r ∈ [reqSearchC1], ∃ lbl iu, r.data = ReqData.search lbl iu := by
    intro r hr
    rw [List.mem_singleton] at hr
    refine ⟨"", "", ?_⟩
    rw [hr]
    rfl
  exact Reach.handle stC1d 0 respCompanyC1 (Reach.handle stC1c 0 respDetailC1
    (Reach.handle stC1b 1 respDetailC1 (Reach.handle stC1a 0 respSearchC1
      (Reach.init [reqSearchC1] hsearch))))

/-! ## Lemmas : the card-loop dedup path -/

theorem processCards_at_cap (cfg : Config) (iu : String) (cards : List Card) (s : St)
    (h : s.totalScraped ≥ cfg.maxItems) : processCards cfg iu cards s = s := by
  cases cards with
  | nil => rfl
  | cons c rest =>
      simp only [processCards]
      rw [if_pos h]

theorem processCards_skip (cfg : Config) (iu : String) (c : Card) (rest : List Card)
    (s : St) (hmem : c.id ∈ s.scrapedIds) :
    processCards cfg iu (c :: rest) s = processCards cfg iu rest s := by
  by_cases hcap : s.totalScraped ≥ cfg.maxItems
  · rw [processCards_at_cap cfg iu (c :: rest) s hcap, processCards_at_cap cfg iu rest s hcap]
  · simp only [processCards]
    rw [if_neg hcap, if_pos hmem]

theorem addRequest_mem (s : St) (r : Request) (f : Bool) :
    (addRequest s r f).1.pathTaken = s.pathTaken ∧
    (addRequest s r f).1.scrapedIds = s.scrapedIds ∧
    (addRequest s r f).1.pushed = s.pushed ∧
    (∀ r' ∈ s.dispatched, r' ∈ (addRequest s r f).1.dispatched) := by
  unfold addRequest
  split
  · exact ⟨rfl, rfl, rfl, fun r' h => h⟩
  · exact ⟨rfl, rfl, rfl, fun r' h => List.mem_cons_of_mem _ h⟩

theorem pushResult_mem (cfg : Config) (j : Job) (s : St) :
    (pushResult cfg j s).pathTaken = s.pathTaken ∧
    (pushResult cfg j s).scrapedIds = s.scrapedIds ∧
    (∀ j' ∈ s.pushed, j' ∈ (pushResult cfg j s).pushed) ∧
    (pushResult cfg j s).dispatched = s.dispatched := by
  unfold pushResult
  split
  · exact ⟨rfl, rfl, fun j' h => h, rfl⟩
  · exact ⟨rfl, rfl, fun j' h => List.mem_append_left _ h, rfl⟩

theorem processCards_mem_mono (cfg : Config) (iu : String) (cards : List Card) :
    ∀ s : St,
    (∀ a ∈ s.pathTaken, a ∈ (processCards cfg iu cards s).pathTaken) ∧
    (∀ a ∈ s.scrapedIds, a ∈ (processCards cfg iu cards s).scrapedIds) ∧
    (∀ j ∈ s.pushed, j ∈ (processCards cfg iu cards s).pushed) ∧
    (∀ r ∈ s.dispatched, r ∈ (processCards cfg iu cards s).dispatched) := by
  induction cards with
  | nil =>
      intro s
      exact ⟨fun a h => h, fun a h => h, fun j h => h, fun r h => h⟩
  | cons c rest ih =>
      intro s
      simp only [processCards]
      split
      · exact ⟨fun a h => h, fun a h => h, fun j h => h, fun r h => h⟩
      · split
        · exact ih s
        · split
          · obtain ⟨m1, m2, m3, m4⟩ := ih ((addRequest
              { s with scrapedIds := c.id :: s.scrapedIds, pathTaken := c.id :: s.pathTaken }
              (detailRequest c (mkCardJob c iu)) true).1)
            obtain ⟨a1, a2, a3, a4⟩ := addRequest_mem
              { s with scrapedIds := c.id :: s.scrapedIds, pathTaken := c.id :: s.pathTaken }
              (detailRequest c (mkCardJob c iu)) true
            refine ⟨fun a h => m1 a ?_, fun a h => m2 a ?_, fun j h => m3 j ?_,
              fun r h => m4 r (a4 r h)⟩
            · rw [a1]
              exact List.mem_cons_of_mem _ h
            · rw [a2]
              exact List.mem_cons_of_mem _ h
            · rw [a3]
              exact h
          · obtain ⟨m1, m2, m3, m4⟩ := ih (pushResult cfg (mkCardJob c iu)
              { s with scrapedIds := c.id :: s.scrapedIds, pathTaken := c.id :: s.pathTaken })
            obtain ⟨b1, b2, b3, b4⟩ := pushResult_mem cfg (mkCardJob c iu)
              { s with scrapedIds := c.id :: s.scrapedIds, pathTaken := c.id :: s.pathTaken }
            refine ⟨fun a h => m1 a ?_, fun a h => m2 a ?_, fun j h => m3 j (b3 j h),
              fun r h => m4 r ?_⟩
            · rw [b1]
              exact List.mem_cons_of_mem _ h
            · rw [b2]
              exact List.mem_cons_of_mem _ h
            · rw [b4]
              exact h

theorem processCards_fresh (cfg : Config) (iu : String) (c : Card) (rest : List Card)
    (s : St) (hcap : s.totalScraped < cfg.maxItems) (hnew : c.id ∉ s.scrapedIds) :
    c.id ∈ (processCards cfg iu (c :: rest) s).pathTaken ∧
    c.id ∈ (processCards cfg iu (c :: rest) s).scrapedIds ∧
    (cfg.scrapeJobDetails = false →
      mkCardJob c iu ∈ (processCards cfg iu (c :: rest) s).pushed) ∧
    (cfg.scrapeJobDetails = true →
      "detail-" ++ c.id ∉ s.dispatched.map Request.uniqueKey →
      detailRequest c (mkCardJob c iu) ∈ (processCards cfg iu (c :: rest) s).dispatched) := by
  simp only [processCards]
  rw [if_neg (by omega), if_neg hnew]
  by_cases hd : cfg.scrapeJobDetails = true
  · rw [if_pos hd]
    obtain ⟨m1, m2, m3, m4⟩ := processCards_mem_mono cfg iu rest ((addRequest
      { s with scrapedIds := c.id :: s.scrapedIds, pathTaken := c.id :: s.pathTaken }
      (detailRequest c (mkCardJob c iu)) true).1)
    obtain ⟨a1, a2, a3, a4⟩ := addRequest_mem
      { s with scrapedIds := c.id :: s.scrapedIds, pathTaken := c.id :: s.pathTaken }
      (detailRequest c (mkCardJob c iu)) true
    refine ⟨m1 _ ?_, m2 _ ?_, fun hfalse => ?_, fun _ hkey => ?_⟩
    · rw [a1]
      exact List.mem_cons_self _ _
    · rw [a2]
      exact List.mem_cons_self _ _
    · rw [hfalse] at hd
      exact Bool.noConfusion hd
    · have hkey2 : (detailRequest c (mkCardJob c iu)).uniqueKey ∉
          ({ s with scrapedIds := c.id :: s.scrapedIds, pathTaken := c.id :: s.pathTaken } : St).dispatched.map Request.uniqueKey :=
        hkey
      have hdisp : (addRequest
          { s with scrapedIds := c.id :: s.scrapedIds, pathTaken := c.id :: s.pathTaken }
          (detailRequest c (mkCardJob c iu)) true).1.dispatched =
          detailRequest c (mkCardJob c iu) ::
            ({ s with scrapedIds := c.id :: s.scrapedIds, pathTaken := c.id :: s.pathTaken } : St).dispatched := by
        unfold addRequest
        rw [if_neg hkey2]
      refine m4 _ ?_
      rw [hdisp]
      exact List.mem_cons_self _ _
  · rw [if_neg hd]
    have hd2 : cfg.scrapeJobDetails = false := by
      revert hd
      cases cfg.scrapeJobDetails <;> simp
    obtain ⟨m1, m2, m3, m4⟩ := processCards_mem_mono cfg iu rest (pushResult cfg (mkCardJob c iu)
      { s with scrapedIds := c.id :: s.scrapedIds, pathTaken := c.id :: s.pathTaken })
    obtain ⟨b1, b2, b3, b4⟩ := pushResult_mem cfg (mkCardJob c iu)
      { s with scrapedIds := c.id :: s.scrapedIds, pathTaken := c.id :: s.pathTaken }
    refine ⟨m1 _ ?_, m2 _ ?_, fun _ => m3 _ ?_, fun htrue _ => ?_⟩
    · rw [b1]
      exact List.mem_cons_self _ _
    · rw [b2]
      exact List.mem_cons_self _ _
    · rw [pushResult_under cfg (mkCardJob c iu)
        { s with scrapedIds := c.id :: s.scrapedIds, pathTaken := c.id :: s.pathTaken } hcap]
      exact List.mem_append_right _ (List.mem_singleton_self _)
    · rw [htrue] at hd2
      exact Bool.noConfusion hd2

/-- C3 (amended).  The dispatch-or-push trace never repeats a JobId (the
ghost `pathTaken` is nodup in every reachable state, and every id on it is
in `scrapedIds`); a card whose id is already marked is skipped outright by
the card loop; and a fresh card is marked and dispatched-or-pushed provided
the budget is not yet exhausted.  ("Exactly once" fails without the budget
proviso: once `totalScraped` reaches `maxItems` the loop breaks before
marking, so a repeated id across SEARCH results can take the path zero
times.) -/
theorem dedup_path (cfg : Config) :
    (∀ s, Reach cfg s → s.pathTaken.Nodup ∧ ∀ a ∈ s.pathTaken, a ∈ s.scrapedIds) ∧
    (∀ (inputU : String) (c : Card) (rest : List Card) (s : St), c.id ∈ s.scrapedIds →
      processCards cfg inputU (c :: rest) s = processCards cfg inputU rest s) ∧
    (∀ (inputU : String) (c : Card) (rest : List Card) (s : St),
      s.totalScraped < cfg.maxItems → c.id ∉ s.scrapedIds →
      c.id ∈ (processCards cfg inputU (c :: rest) s).pathTaken ∧
      c.id ∈ (processCards cfg inputU (c :: rest) s).scrapedIds ∧
      (cfg.scrapeJobDetails = false →
        mkCardJob c inputU ∈ (processCards cfg inputU (c :: rest) s).pushed) ∧
      (cfg.scrapeJobDetails = true →
        "detail-" ++ c.id ∉ s.dispatched.map Request.uniqueKey →
        detailRequest c (mkCardJob c inputU) ∈
          (processCards cfg inputU (c :: rest) s).dispatched)) := by
  refine ⟨?_, ?_, ?_⟩
  · intro s hs
    have hinv := reach_inv hs
    exact ⟨hinv.pathNodup, hinv.pathScraped⟩
  · intro iu c rest s hmem
    exact processCards_skip cfg iu c rest s hmem
  · intro iu c rest s h1 h2
    exact processCards_fresh cfg iu c rest s h1 h2

def cfgC3W : Config :=
  { maxItems := 2, scrapeJobDetails := false, scrapeCompany := false, globalInputUrl := "" }

def cardC3W : Card := { id := "X", companyLinkedinUrl := "", fields := [] }

/-- C3 witness: a fresh card is marked on the path and its summary record
pushed. -/
theorem dedup_path_witness :
    "X" ∈ (processCards cfgC3W "" [cardC3W] emptySt).pathTaken ∧
    mkCardJob cardC3W "" ∈ (processCards cfgC3W "" [cardC3W] emptySt).pushed :=
  ⟨((dedup_path cfgC3W).2.2 "" cardC3W [] emptySt (by decide) (by decide)).1,
   ((dedup_path cfgC3W).2.2 "" cardC3W [] emptySt (by decide) (by decide)).2.2.1 rfl⟩

def cfgC3 : Config :=
  { maxItems := 1, scrapeJobDetails := false, scrapeCompany := false, globalInputUrl := "" }

def cardA3 : Card := { id := "A", companyLinkedinUrl := "", fields := [] }

def cardX3 : Card := { id := "X", companyLinkedinUrl := "", fields := [] }

def reqS31 : Request := { uniqueKey := "https://s1", data := .search "" "", retryCount := 0 }

def reqS32 : Request := { uniqueKey := "https://s2", data := .search "" "", retryCount := 0 }

def respS31 : Resp :=
  { status := 200, cards := [cardA3, cardX3], loginWall := false, detail := [],
    company := [], jitter := 0 }

def respS32 : Resp :=
  { status := 200, cards := [cardX3], loginWall := false, detail := [],
    company := [], jitter := 0 }

def stC3a : St := initSt [reqS31, reqS32]

def stC3b : St := stepAt cfgC3 stC3a 0 respS31

def stC3c : St := stepAt cfgC3 stC3b 0 respS32

/-- C3 counterexample: two SEARCH results of the same run both contain a
card with id `X`, the run completes (empty queue), yet the
dispatch-or-push path is taken zero times for `X` — the budget cap was
reached before its first card, so it was never marked and never pushed,
refuting "exactly once". -/
theorem dedup_path_counterexample :
    Reach cfgC3 stC3c ∧
    stC3c.queue = [] ∧
    respS31.cards.map Card.id = ["A", "X"] ∧
    respS32.cards.map Card.id = ["X"] ∧
    "X" ∉ stC3c.scrapedIds ∧
    "X" ∉ stC3c.pathTaken ∧
    stC3c.pushed.map (fun j => j.card.id) = ["A"] := by
  refine ⟨?_, by decide, by decide, by decide, by decide, by decide, by decide⟩
  have hsearch : ∀ r ∈ [reqS31, reqS32], ∃ lbl iu, r.data = ReqData.search lbl iu := by
    intro r hr
    simp [List.mem_cons] at hr
    rcases hr with h | h
    · subst h
      exact ⟨"", "", rfl⟩
    · subst h
      exact ⟨"", "", rfl⟩
  exact Reach.handle stC3b 0 respS32 (Reach.handle stC3a 0 respS31
    (Reach.init [reqS31, reqS32] hsearch))

/-! ## Lemmas : the pending join is drained on every resolution -/

theorem failedRequestHandler_company (cfg : Config) (s : St) (slug : String)
    (jobs : List Job) (k : String) (rc : Nat)
    (hb : s.totalScraped +
      (jobs.length + ((List.lookup slug s.pendingCompanies).getD []).length) ≤ cfg.maxItems) :
    (failedRequestHandler cfg ⟨k, ReqData.company slug jobs, rc⟩ s).pushed =
      s.pushed ++ (jobs ++ (List.lookup slug s.pendingCompanies).getD []) ∧
    List.lookup slug
      (failedRequestHandler cfg ⟨k, ReqData.company slug jobs, rc⟩ s).companyCache = some [] ∧
    List.lookup slug
      (failedRequestHandler cfg ⟨k, ReqData.company slug jobs, rc⟩ s).pendingCompanies = none := by
  simp only [failedRequestHandler]
  set CS := ({ s with companyCache := mapSet s.companyCache slug [] } : St) with hCS
  have c1 : CS.pushed = s.pushed := by rw [hCS]
  have c2 : CS.totalScraped = s.totalScraped := by rw [hCS]
  have c3 : CS.companyCache = mapSet s.companyCache slug [] := by rw [hCS]
  have c4 : CS.pendingCompanies = s.pendingCompanies := by rw [hCS]
  obtain ⟨p1, p2, p3, p4, p5, p6⟩ := foldl_push_budget cfg (fun j => j)
    (jobs ++ (List.lookup slug s.pendingCompanies).getD []) CS
    (by rw [c2]; simp; omega)
  set F1 := List.foldl (fun st j => pushResult cfg j st) CS
    (jobs ++ (List.lookup slug s.pendingCompanies).getD []) with hF1
  refine ⟨?_, ?_, ?_⟩
  · show F1.pushed = _
    rw [p1, c1]
    simp
  · show List.lookup slug F1.companyCache = _
    rw [p3, c3]
    exact lookup_mapSet_self _ _ _
  · show List.lookup slug (mapDelete F1.pendingCompanies slug) = _
    exact lookup_mapDelete_self _ _

/-- C4 (amended).  Whenever a COMPANY request resolves while enough budget
remains, every passenger and overflow record parked for its slug is pushed
and the pending list is removed: a permanently failed request (the
`failedRequestHandler`) tombstones the cache with the empty bag and pushes
the jobs without company fields; an exhausted rate-limit retry resolves to
the tombstone through `handleCompany` without throwing; a non-retryable
failure status does the same; and the run is never aborted.  ("Every parked
record is eventually pushed" fails without the budget proviso: `pushResult`
drops parked jobs once `totalScraped` reaches `maxItems`.) -/
theorem pending_join_drain (cfg : Config) :
    (∀ (s : St) (slug : String) (jobs : List Job) (k : String) (rc : Nat),
      s.totalScraped +
        (jobs.length + ((List.lookup slug s.pendingCompanies).getD []).length) ≤ cfg.maxItems →
      (failedRequestHandler cfg ⟨k, ReqData.company slug jobs, rc⟩ s).pushed =
        s.pushed ++ (jobs ++ (List.lookup slug s.pendingCompanies).getD []) ∧
      List.lookup slug
        (failedRequestHandler cfg ⟨k, ReqData.company slug jobs, rc⟩ s).companyCache = some [] ∧
      List.lookup slug
        (failedRequestHandler cfg ⟨k, ReqData.company slug jobs, rc⟩ s).pendingCompanies = none) ∧
    (∀ (s : St) (slug : String) (jobs : List Job) (rc : Nat) (resp : Resp),
      (resp.status = 999 ∨ resp.status = 429) → ¬ rc < 4 →
      s.totalScraped +
        (jobs.length + ((List.lookup slug s.pendingCompanies).getD []).length) ≤ cfg.maxItems →
      (handleCompany cfg slug jobs rc resp s).2 = false ∧
      (handleCompany cfg slug jobs rc resp s).1.pushed =
        s.pushed ++ (jobs ++ (List.lookup slug s.pendingCompanies).getD []).map
          (fun j => assignCompany j []) ∧
      List.lookup slug (handleCompany cfg slug jobs rc resp s).1.companyCache = some []) ∧
    (∀ (s : St) (slug : String) (jobs : List Job) (rc : Nat) (resp : Resp),
      resp.status ≠ 999 → resp.status ≠ 429 → resp.status ≠ 200 → resp.loginWall = false →
      s.totalScraped +
        (jobs.length + ((List.lookup slug s.pendingCompanies).getD []).length) ≤ cfg.maxItems →
      (handleCompany cfg slug jobs rc resp s).2 = false ∧
      (handleCompany cfg slug jobs rc resp s).1.pushed =
        s.pushed ++ (jobs ++ (List.lookup slug s.pendingCompanies).getD []).map
          (fun j => assignCompany j []) ∧
      List.lookup slug (handleCompany cfg slug jobs rc resp s).1.companyCache = some []) := by
  refine ⟨?_, ?_, ?_⟩
  · intro s slug jobs k rc hb
    exact failedRequestHandler_company cfg s slug jobs k rc hb
  · intro s slug jobs rc resp hstat hrc hb
    obtain ⟨f1, f2, f3, f4⟩ := finishCompany_spec cfg slug jobs [] resp.jitter s hb
    unfold handleCompany
    rw [if_pos hstat, if_neg hrc]
    exact ⟨rfl, f1, f2⟩
  · intro s slug jobs rc resp h999 h429 h200 hwall hb
    obtain ⟨f1, f2, f3, f4⟩ := finishCompany_spec cfg slug jobs [] resp.jitter s hb
    unfold handleCompany
    rw [if_neg (by rintro (h | h); exacts [h999 h, h429 h])]
    rw [if_neg (by rintro ⟨h, g⟩; exact h200 h)]
    rw [if_neg (by rintro ⟨h, g⟩; rw [hwall] at h; exact Bool.noConfusion h)]
    exact ⟨rfl, f1, f2⟩

def cfgC4W : Config :=
  { maxItems := 2, scrapeJobDetails := true, scrapeCompany := true, globalInputUrl := "" }

def jobC4W : Job :=
  { card := { id := "J9", companyLinkedinUrl := "https://www.linkedin.com/company/acme",
              fields := [] },
    inputUrl := "", detailFields := none, companyFields := [] }

/-- C4 witness: on the empty state, a permanent failure of the
`company-acme` request carrying one passenger pushes the passenger,
tombstones the cache and clears the pending list. -/
theorem pending_join_drain_witness :
    (failedRequestHandler cfgC4W ⟨"company-acme", ReqData.company "acme" [jobC4W], 5⟩
        emptySt).pushed =
      emptySt.pushed ++ ([jobC4W] ++ (List.lookup "acme" emptySt.pendingCompanies).getD []) ∧
    List.lookup "acme" (failedRequestHandler cfgC4W
        ⟨"company-acme", ReqData.company "acme" [jobC4W], 5⟩ emptySt).companyCache = some [] ∧
    List.lookup "acme" (failedRequestHandler cfgC4W
        ⟨"company-acme", ReqData.company "acme" [jobC4W], 5⟩ emptySt).pendingCompanies = none :=
  (pending_join_drain cfgC4W).1 emptySt "acme" [jobC4W] "company-acme" 5 (by decide)

/-- The ids of the passenger jobs a queued COMPANY request carries. -/
def companyPassengers (r : Request) : List String :=
  match r.data with
  | .company _ js => js.map (fun j => j.card.id)
  | _ => []

def cfgC4 : Config :=
  { maxItems := 1, scrapeJobDetails := true, scrapeCompany := true, globalInputUrl := "" }

def cardA4 : Card :=
  { id := "A", companyLinkedinUrl := "https://www.linkedin.com/company/acme", fields := [] }

def cardB4 : Card := { id := "B", companyLinkedinUrl := "", fields := [] }

def reqS4 : Request := { uniqueKey := "https://s", data := .search "" "", retryCount := 0 }

def respSearchC4 : Resp :=
  { status := 200, cards := [cardA4, cardB4], loginWall := false, detail := [],
    company := [], jitter := 0 }

def respDetailC4 : Resp :=
  { status := 200, cards := [], loginWall := false, detail := [("d", "1")],
    company := [], jitter := 0 }

def stC4a : St := initSt [reqS4]

def stC4b : St := stepAt cfgC4 stC4a 0 respSearchC4

def stC4c : St := stepAt cfgC4 stC4b 1 respDetailC4

def stC4d : St := stepAt cfgC4 stC4c 0 respDetailC4

def stC4e : St := failStep cfgC4 stC4d 0

def stC4f : St := failStep cfgC4 stC4e 0

def stC4g : St := failStep cfgC4 stC4f 0

def stC4h : St := failStep cfgC4 stC4g 0

def stC4i : St := failStep cfgC4 stC4h 0

def stC4j : St := failStep cfgC4 stC4i 0

/-- C4 counterexample: job A is parked as the passenger of the
`company-acme` request (visible in the queue after its JOB_DETAIL step);
the company fetch then fails permanently after its retries; the run
completes with the tombstone cached and the pending list cleared — yet A is
never pushed, because job B exhausted the `maxItems = 1` budget first.
This refutes "every parked JobRecord is eventually pushed". -/
theorem pending_join_drain_counterexample :
    Reach cfgC4 stC4j ∧
    stC4c.queue.map Request.uniqueKey = ["detail-B", "company-acme"] ∧
    stC4c.queue.map companyPassengers = [[], ["A"]] ∧
    stC4j.queue = [] ∧
    List.lookup "acme" stC4j.companyCache = some [] ∧
    List.lookup "acme" stC4j.pendingCompanies = none ∧
    stC4j.pushed.map (fun j => j.card.id) = ["B"] ∧
    "A" ∉ stC4j.pushed.map (fun j => j.card.id) := by
  refine ⟨?_, by decide, by decide, by decide, by decide, by decide, by decide, by decide⟩
  have hsearch : ∀ r ∈ [reqS4], ∃ lbl iu, r.data = ReqData.search lbl iu := by
    intro r hr
    rw [List.mem_singleton] at hr
    subst hr
    exact ⟨"", "", rfl⟩
  exact Reach.fail stC4i 0 (Reach.fail stC4h 0 (Reach.fail stC4g 0 (Reach.fail stC4f 0
    (Reach.fail stC4e 0 (Reach.fail stC4d 0 (Reach.handle stC4c 0 respDetailC4
      (Reach.handle stC4b 1 respDetailC4 (Reach.handle stC4a 0 respSearchC4
        (Reach.init [reqS4] hsearch)))))))))

end Scraper
